import Mathlib

/-!
Verification of the kdl-go KDL parser/serializer core against its
natural-language specification.

The Go sources are shallowly embedded: Go strings and byte slices become
`List Nat` (each element a byte value < 256), machine integers become
`Nat`/`Int` with the overflow checks of the original code made explicit,
and fallible functions return `Except Unit` (the Go code returns an
`error`; the error message text is irrelevant to every property proved
here).  Each definition mirrors one Go function and is named after it.
-/

namespace KdlGo

/-! ### Small byte helpers

Go bytes are plain `Nat` values below 256 throughout this file. -/

/-- Decimal digit predicate on bytes, as in Go `c >= '0' && c <= '9'`. -/
def isDigitByte (c : Nat) : Bool := 48 ≤ c && c ≤ 57

/-- Value of one byte under the `hexTable` array of document/strings.go:
hex digits map to their value, every other byte maps to 0 (the array's
zero value). -/
def hexTableVal (c : Nat) : Nat :=
  if 48 ≤ c && c ≤ 57 then c - 48
  else if 97 ≤ c && c ≤ 102 then c - 97 + 10
  else if 65 ≤ c && c ≤ 70 then c - 65 + 10
  else 0

/-- Hex-digit predicate (0-9, a-f, A-F). -/
def isHexDigitByte (c : Nat) : Bool :=
  (48 ≤ c && c ≤ 57) || (97 ≤ c && c ≤ 102) || (65 ≤ c && c ≤ 70)

/-- Nat of a digit value below `base` (lowercase letters for 10..15), as
produced by Go's strconv digit tables. -/
def digitByte (d : Nat) : Nat := if d < 10 then 48 + d else 97 + (d - 10)

/-- Digit recursion for `natToBase`: `fuel` only witnesses termination
(each step divides a positive `n` by `b ≥ 2`, so `n` units always
suffice); structural recursion on `fuel` keeps the definition
kernel-computable. -/
def natToBaseAux (b : Nat) : Nat → Nat → List Nat
  | 0, n => [digitByte n]
  | fuel + 1, n =>
    if n < b || b < 2 then [digitByte n]
    else natToBaseAux b fuel (n / b) ++ [digitByte (n % b)]

/-- Digits of `n` in base `b` (most significant first), as emitted by
Go's `strconv.AppendUint`/`big.Int.Append` for a non-negative value:
`0` renders as `"0"`, no leading zeros otherwise.  Requires `2 ≤ b`. -/
def natToBase (b : Nat) (n : Nat) : List Nat :=
  natToBaseAux b n n

/-- Signed rendering in base `b`, as in Go `strconv.AppendInt` and
`big.Int.Append`: a leading `-` for negative values, then the digits of
the magnitude. -/
def intToBase (b : Nat) (x : Int) : List Nat :=
  if x < 0 then 45 :: natToBase b x.natAbs else natToBase b x.natAbs

/-- Value of a most-significant-first decimal digit string. -/
def valDigits (ds : List Nat) : Nat :=
  ds.foldl (fun a c => a * 10 + (c - 48)) 0

/-! ### UTF-8 model

Mirrors Go's `unicode/utf8`: `utf8DecodeRune` is `DecodeRuneInString`
(first-byte classification table `first` plus the `acceptRanges`
second-byte bounds; malformed input yields `(RuneError, 1)`), and
`utf8EncodeRune` is `AppendRune`/`EncodeRune` (surrogates and values
above U+10FFFF encode as RuneError). -/

/-- First-byte classification: `some (size, lo, hi)` gives the sequence
length and the accepted range for the second byte; `none` marks an
invalid first byte (0x80..0xC1, 0xF5..0xFF). -/
def utf8First (b0 : Nat) : Option (Nat × Nat × Nat) :=
  if 0xC2 ≤ b0 && b0 ≤ 0xDF then some (2, 0x80, 0xBF)
  else if b0 = 0xE0 then some (3, 0xA0, 0xBF)
  else if 0xE1 ≤ b0 && b0 ≤ 0xEC then some (3, 0x80, 0xBF)
  else if b0 = 0xED then some (3, 0x80, 0x9F)
  else if 0xEE ≤ b0 && b0 ≤ 0xEF then some (3, 0x80, 0xBF)
  else if b0 = 0xF0 then some (4, 0x90, 0xBF)
  else if 0xF1 ≤ b0 && b0 ≤ 0xF3 then some (4, 0x80, 0xBF)
  else if b0 = 0xF4 then some (4, 0x80, 0x8F)
  else none

/-- Continuation byte predicate (0x80..0xBF). -/
def utf8Cont (b : Nat) : Bool := 0x80 ≤ b && b ≤ 0xBF

/-- `utf8.DecodeRuneInString`: returns (rune, size); `(0xFFFD, 1)` for a
malformed or truncated sequence, `(0xFFFD, 0)` for empty input. -/
def utf8DecodeRune : List Nat → Nat × Nat
  | [] => (0xFFFD, 0)
  | b0 :: rest =>
    if b0 < 0x80 then (b0, 1)
    else
      match utf8First b0 with
      | none => (0xFFFD, 1)
      | some (sz, lo, hi) =>
        match sz, rest with
        | 2, b1 :: _ =>
          if lo ≤ b1 && b1 ≤ hi then ((b0 % 0x20) * 0x40 + b1 % 0x40, 2)
          else (0xFFFD, 1)
        | 3, b1 :: b2 :: _ =>
          if lo ≤ b1 && b1 ≤ hi && utf8Cont b2 then
            ((b0 % 0x10) * 0x1000 + (b1 % 0x40) * 0x40 + b2 % 0x40, 3)
          else (0xFFFD, 1)
        | 4, b1 :: b2 :: b3 :: _ =>
          if lo ≤ b1 && b1 ≤ hi && utf8Cont b2 && utf8Cont b3 then
            ((b0 % 0x08) * 0x40000 + (b1 % 0x40) * 0x1000 + (b2 % 0x40) * 0x40 + b3 % 0x40, 4)
          else (0xFFFD, 1)
        | _, _ => (0xFFFD, 1)

/-- `utf8.EncodeRune`; surrogates (U+D800..U+DFFF) and values above
U+10FFFF are replaced by RuneError (U+FFFD) exactly as in Go. -/
def utf8EncodeRune (r : Nat) : List Nat :=
  if r < 0x80 then [r]
  else if r < 0x800 then [0xC0 + r / 0x40, 0x80 + r % 0x40]
  else if (0xD800 ≤ r && r ≤ 0xDFFF) || 0x10FFFF < r then
    -- RuneError = U+FFFD, three bytes
    [0xEF, 0xBF, 0xBD]
  else if r < 0x10000 then
    [0xE0 + r / 0x1000, 0x80 + (r / 0x40) % 0x40, 0x80 + r % 0x40]
  else
    [0xF0 + r / 0x40000, 0x80 + (r / 0x1000) % 0x40, 0x80 + (r / 0x40) % 0x40, 0x80 + r % 0x40]

/-- Size of a decode step is at least 1 on non-empty input (used for
termination of byte-stream loops). -/
theorem utf8DecodeRune_size_pos (b0 : Nat) (rest : List Nat) :
    1 ≤ (utf8DecodeRune (b0 :: rest)).2 := by
  simp only [utf8DecodeRune]
  split
  · simp
  split
  · simp
  split <;> first | (split <;> simp) | simp

/-! ### document/strings.go: QuoteString / UnquoteString / raw strings -/

/-- The `noEscapeTable` of document/strings.go: the `init` function sets
index `i` (for `0 ≤ i ≤ 0x7e`) to `i >= 0x20 && i != '\\' && i != '"'`;
all higher indices keep the array's zero value `false`. -/
def noEscape (c : Nat) : Bool :=
  c ≤ 0x7e && 0x20 ≤ c && c != 92 && c != 34

/-- The literal six bytes `�` appended by both AppendQuotedString
and AppendUnquotedString in place of an invalid UTF-8 byte. -/
def replacementText : List Nat := [92, 117, 102, 102, 102, 100]

/-- Per-byte/rune loop of `AppendQuotedString` (document/strings.go).

The Go function first scans for a byte needing encoding and, once one is
found, copies pending simple bytes in chunks delimited by `start`; the
chunked copying is a buffering device with the same output as this
one-rune-at-a-time recursion.  Escapes: the active quote, backslash and
`/` become two-byte escapes, the five named control characters become
`\n \r \t \b \f`, every other byte outside `noEscapeTable` below 0x80
becomes `\u` followed by its bare lowercase hex digits (note: no braces),
multi-byte runes pass through verbatim, and an invalid UTF-8 byte
becomes the literal text `�`. -/
def quoteLoop (quote : Nat) : Nat → List Nat → List Nat → List Nat
  | _, acc, [] => acc
  | 0, acc, _ => acc
  | fuel + 1, acc, c :: cs =>
    if noEscape c then quoteLoop quote fuel (acc ++ [c]) cs
    else if 0x80 ≤ c then
      -- `utf8DecodeRune` consumes at least one byte on non-empty input
      -- (utf8DecodeRune_size_pos), so advancing by `cs.drop (size - 1)`
      -- is the source's advance of the cursor by `size`; each iteration
      -- consumes at least one input byte, so `s.length` fuel units
      -- always suffice and the fuel-exhausted case is unreachable.
      match utf8DecodeRune (c :: cs) with
      | (r, size) =>
        if r = 0xFFFD && size = 1 then quoteLoop quote fuel (acc ++ replacementText) cs
        else quoteLoop quote fuel (acc ++ (c :: cs).take size) (cs.drop (size - 1))
    else if c = quote || c = 92 || c = 47 then quoteLoop quote fuel (acc ++ [92, c]) cs
    else if c = 10 then quoteLoop quote fuel (acc ++ [92, 110]) cs
    else if c = 13 then quoteLoop quote fuel (acc ++ [92, 114]) cs
    else if c = 9 then quoteLoop quote fuel (acc ++ [92, 116]) cs
    else if c = 8 then quoteLoop quote fuel (acc ++ [92, 98]) cs
    else if c = 12 then quoteLoop quote fuel (acc ++ [92, 102]) cs
    else quoteLoop quote fuel (acc ++ [92, 117] ++ natToBase 16 c) cs

/-- `AppendQuotedString(b, s, quote)`: opening quote, escaped content,
closing quote. -/
def appendQuotedString (b s : List Nat) (quote : Nat) : List Nat :=
  quoteLoop quote s.length (b ++ [quote]) s ++ [quote]

/-- `QuoteString(s)` = `AppendQuotedString(nil, s, '"')`. -/
def quoteString (s : List Nat) : List Nat :=
  appendQuotedString [] s 34

/-- The `case 'u'` block of `AppendUnquotedString` (document/strings.go
lines 221-250), applied to the bytes after the `u` (the source works
with an index `i` at the `u`; `cs2` is `s[i+1:]`).  In order: the
lookahead check (`i+3 >= lenS`, i.e. fewer than three bytes after the
`u`, is ErrInvalid), the opening-brace check, the scan to the closing
`}` (its absence is ErrInvalid), the six-byte limit between the braces,
the fold through `hexTable` (non-hex bytes contribute 0), the U+10FFFF
bound, and finally `utf8.AppendRune`.  Returns the new output buffer
and the input remaining after the `}`. -/
def unquoteUnicodeEscape (acc cs2 : List Nat) : Except Unit (List Nat × List Nat) :=
  if cs2.length < 3 then .error ()
  else
    match cs2 with
    | [] => .error ()
    | lb :: cs3 =>
      if lb != 123 then .error ()
      else
        let digits := cs3.takeWhile (fun d => d != 125)
        if digits.length = cs3.length then .error ()
        else if 6 < digits.length then .error ()
        else
          let r := digits.foldl (fun a d => a * 16 + hexTableVal d) 0
          if 0x10FFFF < r then .error ()
          else .ok (acc ++ utf8EncodeRune r, cs3.drop (digits.length + 1))

/-- Per-byte/rune loop of `AppendUnquotedString` over the inner bytes
(quotes already stripped).  As for `quoteLoop`, the source's chunked
copying of simple bytes has the same output as this one-at-a-time
recursion, and one fuel unit per iteration with fuel `s.length` always
suffices.  The Go function also returns the partial buffer next to a
non-nil error; every caller discards it, so errors carry no data here. -/
def unquoteLoop : Nat → List Nat → List Nat → Except Unit (List Nat)
  | _, acc, [] => .ok acc
  | 0, acc, _ => .ok acc
  | fuel + 1, acc, c :: cs =>
    if c = 92 then
      match cs with
      | [] => .error ()
      | e :: cs2 =>
        if e = 117 then
          match unquoteUnicodeEscape acc cs2 with
          | .error _ => .error ()
          | .ok (acc2, rest2) => unquoteLoop fuel acc2 rest2
        else if e = 110 then unquoteLoop fuel (acc ++ [10]) cs2
        else if e = 114 then unquoteLoop fuel (acc ++ [13]) cs2
        else if e = 116 then unquoteLoop fuel (acc ++ [9]) cs2
        else if e = 98 then unquoteLoop fuel (acc ++ [8]) cs2
        else if e = 102 then unquoteLoop fuel (acc ++ [12]) cs2
        else unquoteLoop fuel (acc ++ [e]) cs2
    else if 0x80 ≤ c then
      -- as in `quoteLoop`, `size ≥ 1` on non-empty input, so
      -- `cs.drop (size - 1)` is the source's advance by `size`; each
      -- iteration consumes at least one byte, so fuel `s.length` always
      -- suffices and the fuel-exhausted case is unreachable.
      match utf8DecodeRune (c :: cs) with
      | (r, size) =>
        if r = 0xFFFD && size = 1 then unquoteLoop fuel (acc ++ replacementText) cs
        else unquoteLoop fuel (acc ++ (c :: cs).take size) (cs.drop (size - 1))
    else unquoteLoop fuel (acc ++ [c]) cs

/-- `AppendUnquotedString(b, s, quote)`: rejects inputs shorter than two
bytes or not enclosed in `quote`, then decodes the inner bytes. -/
def appendUnquotedString (b s : List Nat) (quote : Nat) : Except Unit (List Nat) :=
  if s.length < 2 || s.head? != some quote || s.getLast? != some quote then .error ()
  else unquoteLoop s.length b (s.drop 1).dropLast

/-- `UnquoteString(s)`: empty input yields the empty string; the first
byte must be `"` or `'` and becomes the active quote. -/
def unquoteString (s : List Nat) : Except Unit (List Nat) :=
  match s with
  | [] => .ok []
  | q :: _ =>
    if q = 34 || q = 39 then appendUnquotedString [] s q
    else .error ()

/-- Go `strings.Contains(s, sub)` on byte lists. -/
def bytesContains (s sub : List Nat) : Bool :=
  if sub.isPrefixOf s then true
  else
    match s with
    | [] => false
    | _ :: t => bytesContains t sub

/-- The delimiter marker tried by `AppendRawString`: `"` followed by `n`
hash bytes. -/
def rawMarker (n : Nat) : List Nat := 34 :: List.replicate n 35

/-- The `AppendRawString` search loop: starting from marker `"`, append
a `#` while the content still contains the marker.  The Go loop's bound
`i < cap(marker)` grows with every append (Go re-evaluates `cap` each
iteration and `append` keeps `cap ≥ len`), so the loop always runs until
the containment test fails; `fuel` only witnesses termination and
`s.length + 1` steps always suffice because a marker longer than `s`
cannot be contained in it. -/
def rawHashSearch (s : List Nat) (n fuel : Nat) : Nat :=
  match fuel with
  | 0 => n
  | fuel + 1 =>
    if bytesContains s (rawMarker n) then rawHashSearch s (n + 1) fuel else n

/-- Number of hashes chosen by `AppendRawString` for content `s`. -/
def rawStringHashCount (s : List Nat) : Nat :=
  rawHashSearch s 0 (s.length + 1)

/-- `AppendRawString(b, s)`: `r`, the hashes, `"`, the content, then the
marker (`"` plus the hashes).  The capacity-management copy of `b` in
the source does not change the appended bytes. -/
def appendRawString (b s : List Nat) : List Nat :=
  let n := rawStringHashCount s
  b ++ [114] ++ List.replicate n 35 ++ [34] ++ s ++ rawMarker n

/-- `rawString(s)` = `AppendRawString(nil, s)`. -/
def rawString (s : List Nat) : List Nat :=
  appendRawString [] s

/-! ### Models of Go `strconv.ParseInt`/`ParseUint` (base 10, bitSize 64)
and `big.Int.SetString` (base 10), as used by `parseNumber` in
document/value.go.  Machine arithmetic is carried out in `Nat` with the
source's cutoff/overflow checks made explicit. -/

/-- Error kinds of Go's strconv (`ErrSyntax` / `ErrRange`). -/
inductive StrconvErr where
  | syntaxErr
  | rangeErr
deriving DecidableEq, Repr

/-- `maxUint64`. -/
def maxUint64 : Nat := 2 ^ 64 - 1

/-- Digit value of a byte in strconv's ParseUint: decimal digits, then
letters (case-folded through `lower`) from 10 up; `none` is ErrSyntax. -/
def strconvDigit (c : Nat) : Option Nat :=
  if 48 ≤ c && c ≤ 57 then some (c - 48)
  else
    let l := c ||| 0x20
    if 97 ≤ l && l ≤ 122 then some (l - 97 + 10) else none

/-- Digit loop of `strconv.ParseUint(s, base, 64)`: a byte that is not a
digit of `base` is ErrSyntax (value 0); reaching the cutoff
(`maxUint64/base + 1`) before the multiply, or exceeding `maxUint64`
after the add, is ErrRange with the clamped maximum.  Returns Go's
`(value, err)` pair. -/
def parseUintLoop (base n : Nat) : List Nat → Nat × Option StrconvErr
  | [] => (n, none)
  | c :: cs =>
    match strconvDigit c with
    | none => (0, some .syntaxErr)
    | some d =>
      if base ≤ d then (0, some .syntaxErr)
      else if maxUint64 / base + 1 ≤ n then (maxUint64, some .rangeErr)
      else
        let n1 := n * base + d
        if maxUint64 < n1 then (maxUint64, some .rangeErr)
        else parseUintLoop base n1 cs

/-- `strconv.ParseUint(s, base, 64)`: empty input is ErrSyntax. -/
def goParseUint64 (base : Nat) (s : List Nat) : Nat × Option StrconvErr :=
  match s with
  | [] => (0, some .syntaxErr)
  | _ => parseUintLoop base 0 s

/-- `strconv.ParseInt(s, base, 64)`: optional sign, then ParseUint; a
non-range ParseUint error is ErrSyntax; magnitudes of 2^63 (positive)
or above 2^63 (negative) are ErrRange with the clamped bound. -/
def goParseInt64 (base : Nat) (s : List Nat) : Int × Option StrconvErr :=
  match s with
  | [] => (0, some .syntaxErr)
  | c :: rest =>
    let (neg, digits) :=
      if c = 43 then (false, rest)
      else if c = 45 then (true, rest)
      else (false, c :: rest)
    let (un, err) := goParseUint64 base digits
    if err.isSome && err != some .rangeErr then (0, some .syntaxErr)
    else
      let cutoff : Nat := 2 ^ 63
      if !neg && cutoff ≤ un then ((2 : Int) ^ 63 - 1, some .rangeErr)
      else if neg && cutoff < un then (-(2 : Int) ^ 63, some .rangeErr)
      else ((if neg then -(un : Int) else (un : Int)), err)

/-- Value of a most-significant-first digit string in `base` (digit
bytes per `strconvDigit`). -/
def valDigitsBase (base : Nat) (ds : List Nat) : Nat :=
  ds.foldl (fun a c => a * base + (strconvDigit c).getD 0) 0

/-- `big.Int.SetString(s, base)` for an explicit base (2..16 here):
optional sign then a non-empty run of digits of the base; `none` models
Go's `ok = false` (the caller in `parseNumber` ignores it, leaving the
fresh zero `big.Int`). -/
def bigIntSetString (base : Nat) (s : List Nat) : Option Int :=
  match s with
  | [] => none
  | c :: rest =>
    let (neg, digits) :=
      if c = 43 then (false, rest)
      else if c = 45 then (true, rest)
      else (false, c :: rest)
    if digits = [] || !digits.all (fun d => ((strconvDigit d).getD base) < base) then none
    else some ((if neg then -1 else 1) * (valDigitsBase base digits : Int))

/-! ### internal/tokenizer: token kinds and classes (token.go) -/

/-- `tokenizer.TokenID`, including the class pseudo-kinds used by the
parser's transition table. -/
inductive TokenID where
  | unknown
  | newline
  | whitespace
  | multiLineComment
  | singleLineComment
  | tokenComment
  | typeSpec
  | decimal
  | hexadecimal
  | octal
  | binary
  | boolean
  | null
  | bareIdentifier
  | suffixedDecimal
  | rawStr
  | quotedString
  | braceOpen
  | braceClose
  | parensOpen
  | parensClose
  | equals
  | semicolon
  | continuation
  | eof
  | classWhitespace
  | classValue
  | classIdentifier
  | classNonStringValue
  | classNumber
  | classString
  | classTerminator
  | classEndOfLine
  | classComment
deriving DecidableEq, Repr

/-- The `tokenClasses` map: the classes of each concrete token kind, in
the order they are listed in the source (the parser falls back through
them in this order). -/
def TokenID.classes : TokenID → List TokenID
  | .newline => [.classTerminator, .classWhitespace, .classEndOfLine]
  | .whitespace => [.classWhitespace]
  | .multiLineComment => [.classComment]
  | .singleLineComment => [.classComment]
  | .decimal => [.classNumber, .classValue, .classNonStringValue]
  | .hexadecimal => [.classNumber, .classValue, .classNonStringValue]
  | .octal => [.classNumber, .classValue, .classNonStringValue]
  | .binary => [.classNumber, .classValue, .classNonStringValue]
  | .suffixedDecimal => [.classNumber, .classValue, .classNonStringValue]
  | .boolean => [.classValue, .classNonStringValue]
  | .null => [.classValue, .classNonStringValue]
  | .bareIdentifier => [.classValue, .classIdentifier]
  | .rawStr => [.classValue, .classString, .classIdentifier]
  | .quotedString => [.classValue, .classString, .classIdentifier]
  | .semicolon => [.classTerminator]
  | .eof => [.classTerminator, .classEndOfLine]
  | _ => []

/-- `tokenizer.Token` (line/column positions are carried but never read
by the embedded transition logic). -/
structure Token where
  id : TokenID
  data : List Nat
  line : Nat
  column : Nat
deriving DecidableEq, Repr

/-- `Token.Valid`. -/
def Token.valid (t : Token) : Bool := t.id != .unknown

/-- `Token.Clear`: the default (invalid) token. -/
def Token.cleared : Token := ⟨.unknown, [], 0, 0⟩

/-! ### relaxed.Flags and internal/tokenizer/readtype.go predicates -/

/-- `relaxed.Flags` as one boolean per flag bit. -/
structure RelaxedFlags where
  nginxSyntax : Bool := false
  yamlTomlAssignments : Bool := false
  multiplierSuffixes : Bool := false
deriving DecidableEq, Repr

/-- The strict (default) dialect: no relaxed flag set. -/
def strictFlags : RelaxedFlags := {}

/-- `isWhiteSpace` (readtype.go): the unicode-space set plus BOM. -/
def isWhiteSpaceRune (c : Nat) : Bool :=
  c = 9 || c = 32 || c = 0xA0 || c = 0x1680 ||
  (0x2000 ≤ c && c ≤ 0x200A) || c = 0x202F || c = 0x205F || c = 0x3000 || c = 0xFEFF

/-- `isNewline` (readtype.go). -/
def isNewlineRune (c : Nat) : Bool :=
  c = 13 || c = 10 || c = 0x85 || c = 0x0C || c = 0x2028 || c = 0x2029

/-- `isLineSpace`. -/
def isLineSpaceRune (c : Nat) : Bool := isWhiteSpaceRune c || isNewlineRune c

/-- `isBareIdentifierChar` (readtype.go). -/
def isBareIdentifierChar (c : Nat) (r : RelaxedFlags) : Bool :=
  if isLineSpaceRune c then false
  else if c ≤ 0x20 || 0x10FFFF < c then false
  else if c = 123 || c = 125 || c = 60 || c = 62 || c = 59 || c = 91 || c = 93 || c = 61 || c = 44 then
    false
  else if c = 40 || c = 41 || c = 47 || c = 92 || c = 34 then r.nginxSyntax
  else if c = 58 then !r.yamlTomlAssignments
  else true

/-- `isBareIdentifierStartChar`. -/
def isBareIdentifierStartChar (c : Nat) (r : RelaxedFlags) : Bool :=
  isBareIdentifierChar c r && !(isDigitByte c)

/-- Rune loop of `IsBareIdentifier`: Go's `for _, r := range s` decodes
one rune per step (an invalid byte decodes to U+FFFD with size 1, which
`isBareIdentifierChar` accepts, exactly as in Go). -/
def isBareIdentLoop (rf : RelaxedFlags) : Nat → Bool → List Nat → Bool
  | _, _, [] => true
  | 0, _, _ => true
  | fuel + 1, first, c :: cs =>
    -- each rune consumes at least one byte, so fuel `s.length` always
    -- suffices and the fuel-exhausted case is unreachable
    match utf8DecodeRune (c :: cs) with
    | (r, size) =>
      if first then
        if !isBareIdentifierStartChar r rf then false
        else isBareIdentLoop rf fuel false (cs.drop (size - 1))
      else
        if !isBareIdentifierChar r rf then false
        else isBareIdentLoop rf fuel false (cs.drop (size - 1))

/-- `tokenizer.IsBareIdentifier(s, rf)`. -/
def isBareIdentifier (s : List Nat) (rf : RelaxedFlags) : Bool :=
  if s.length = 0 then false else isBareIdentLoop rf s.length true s

/-! ### document/value.go: the Value model -/

/-- `document.ValueFlag`. -/
inductive ValueFlag where
  | flagNone
  | flagRaw
  | flagQuoted
  | flagBinary
  | flagOctal
  | flagHexadecimal
  | flagBareSuffixed
deriving DecidableEq, Repr

/-- The dynamic type of `Value.Value` (an `interface{}` in Go),
restricted to the types `ValueFromToken`/`parseNumber` can produce:
`nil`, `bool`, `string`, `int64`, `*big.Int`, `SuffixedDecimal`, and
the floating-point results (`float64`/`*big.Float`), which are kept as
an opaque tag carrying the cleaned literal bytes because no claim
checked here depends on float formatting or arithmetic. -/
inductive GoValue where
  | nullV
  | boolV (b : Bool)
  | strV (s : List Nat)
  | i64 (v : Int)
  | bigInt (v : Int)
  | floatUnmodelled (cleaned : List Nat)
  | suffixedDec (number suffix : List Nat)
deriving DecidableEq, Repr

/-- `document.Value`: type annotation (empty list = none), value, and
format flag. -/
structure ValueE where
  typeA : List Nat
  val : GoValue
  flag : ValueFlag
deriving DecidableEq, Repr

/-- `parseNumber(b, base)` (document/value.go): strips the two-byte
radix prefix for non-decimal bases, removes `_` separators, detects a
float by `.`/`e`/`E`, and otherwise parses with `strconv.ParseInt`,
widening to `big.Int.SetString` exactly when ParseInt reports ErrRange
(the `ok` result of SetString is ignored, leaving zero on failure).
The float branch keeps the cleaned bytes unmodelled (see `GoValue`). -/
def parseNumber (b : List Nat) (base : Nat) : Except Unit GoValue :=
  let b := if base != 10 then b.drop 2 else b
  let b := b.filter (fun c => c != 95)
  let float := b.contains 46 || (base = 10 && (b.contains 101 || b.contains 69))
  if float then
    if base != 10 then .error ()
    else .ok (.floatUnmodelled b)
  else
    match goParseInt64 base b with
    | (_, some .rangeErr) => .ok (.bigInt ((bigIntSetString base b).getD 0))
    | (_, some .syntaxErr) => .error ()
    | (v, none) => .ok (.i64 v)

/-- `parseQuotedString(b)`. -/
def parseQuotedStringE (b : List Nat) : Except Unit (List Nat) :=
  unquoteString b

/-- `parseRawString(b)`: strips `r`, the leading hashes and quote, and
the closing quote and hashes, by byte offsets from the first `"` (the
tokenizer guarantees the shape; on input without any `"` the Go slice
expressions would panic, modelled here by clamping `take`/`drop`). -/
def parseRawStringE (b : List Nat) : Except Unit (List Nat) :=
  let p := b.findIdx (fun c => c = 34)
  let b1 := b.drop (p + 1)
  .ok (b1.take (b1.length - p))

/-- Character loop of `ParseSuffixedDecimal` (document/suffixeddec.go),
iterating runes with their byte offsets like Go's `for i, c := range b`.
The source's `break` statements inside the `switch` only leave the
switch, so the loop always scans the whole input; `suffixIndex` is an
`Option` (Go uses -1 for "unset") and `duration` the boolean flag. -/
def psdLoop : Nat → List Nat → Nat → Option Nat → Bool →
    Except Unit (Option Nat × Bool)
  | _, [], _, si, dur => .ok (si, dur)
  | 0, _, _, si, dur => .ok (si, dur)
  | fuel + 1, c :: cs, i, si, dur =>
    -- each rune consumes at least one byte, so fuel `b.length` always
    -- suffices and the fuel-exhausted case is unreachable
    match utf8DecodeRune (c :: cs) with
    | (r, size) =>
      if isDigitByte r || r = 46 then
        psdLoop fuel (cs.drop (size - 1)) (i + size) si dur
      else if r = 104 || r = 115 || r = 117 || r = 181 then
        psdLoop fuel (cs.drop (size - 1)) (i + size) (if si.isNone then some i else si) true
      else if r = 107 || r = 75 || r = 109 || r = 77 || r = 103 || r = 71 ||
              r = 116 || r = 84 || r = 98 || r = 66 then
        if si.isNone then psdLoop fuel (cs.drop (size - 1)) (i + size) (some i) dur
        else if r != 98 then psdLoop fuel (cs.drop (size - 1)) (i + size) si true
        else psdLoop fuel (cs.drop (size - 1)) (i + size) si dur
      else .error ()

/-- `ParseSuffixedDecimal(b)`: returns (Number, Suffix). -/
def parseSuffixedDecimal (b : List Nat) : Except Unit (List Nat × List Nat) := do
  let (si, dur) ← psdLoop b.length b 0 none false
  if si = some 0 then .error ()
  else if dur then .ok ([], b)
  else
    match si with
    | none => .ok (b, [])
    | some i => .ok (b.take i, b.drop i)

/-- Suffix resolution of `SuffixedDecimal.AsNumber`
(document/suffixeddec.go, lines 35-63): the length switch fixes the
unit (1000 for a one-letter suffix; 1024 for a two-letter suffix whose
second byte is `b` or `B`; any other length or second byte errors), and
the first-byte switch picks unit^1..unit^4 for k/m/g/t case-insensitive
(anything else errors).  An empty suffix returns the number unscaled.
The numeric prefix is abstracted as the rational `x`: the Go code
multiplies the value `parseNumber` produced from `Number` by the
multiplier in `float64` or `big.Float` arithmetic, and every multiplier
(1000^n up to 10^12 and 1024^n up to 2^40) is exactly representable in
`float64`. -/
def asNumberScaled (x : ℚ) (suffix : List Nat) : Except Unit ℚ :=
  match suffix with
  | [] => .ok x
  | [c] => asNumberMult x 1000 c
  | [c, b2] =>
    if b2 = 98 || b2 = 66 then asNumberMult x 1024 c else .error ()
  | _ => .error ()
where
  /-- The `switch s.Suffix[0]` multiplier selection. -/
  asNumberMult (x unit : ℚ) (c : Nat) : Except Unit ℚ :=
    if c = 107 || c = 75 then .ok (x * unit)
    else if c = 109 || c = 77 then .ok (x * (unit * unit))
    else if c = 103 || c = 71 then .ok (x * (unit * unit * unit))
    else if c = 116 || c = 84 then .ok (x * (unit * unit * unit * unit))
    else .error ()

/-- `ValueFromToken(t)`: kinds without a switch case leave the fresh
`Value{}` untouched (a nil value, which renders as `null`).  The
Boolean case reads `t.Data[0] == 't'` (Go would panic on empty data;
the model reads `head?`). -/
def valueFromToken (t : Token) : Except Unit ValueE :=
  match t.id with
  | .quotedString => do
    let s ← parseQuotedStringE t.data
    .ok ⟨[], .strV s, .flagQuoted⟩
  | .bareIdentifier => .ok ⟨[], .strV t.data, .flagNone⟩
  | .binary => do
    let v ← parseNumber t.data 2
    .ok ⟨[], v, .flagBinary⟩
  | .rawStr => do
    let s ← parseRawStringE t.data
    .ok ⟨[], .strV s, .flagRaw⟩
  | .decimal => do
    let v ← parseNumber t.data 10
    .ok ⟨[], v, .flagNone⟩
  | .suffixedDecimal => do
    let (num, suf) ← parseSuffixedDecimal t.data
    .ok ⟨[], .suffixedDec num suf, .flagNone⟩
  | .octal => do
    let v ← parseNumber t.data 8
    .ok ⟨[], v, .flagOctal⟩
  | .hexadecimal => do
    let v ← parseNumber t.data 16
    .ok ⟨[], v, .flagHexadecimal⟩
  | .boolean => .ok ⟨[], .boolV (t.data.head? = some 116), .flagNone⟩
  | .null => .ok ⟨[], .nullV, .flagNone⟩
  | _ => .ok ⟨[], .nullV, .flagNone⟩

/-! ### document/value.go: rendering (`Value.value` and its wrappers)

`valueOpts` is a bit set in Go; here one boolean per option bit.
Rendering returns `Option (List Nat)`: `none` only for the
floating-point values whose formatting is not modelled (see `GoValue`);
no claim below touches that case. -/

/-- The `valueOpts` bits. -/
structure ValueOpts where
  useNumericFlags : Bool := false
  strictStringFlags : Bool := false
  simpleString : Bool := false
  noQuotes : Bool := false
  noBare : Bool := false
deriving DecidableEq, Repr

/-- `Value.value(b, opts)` (document/value.go): `nil` renders as
`null`; with `voUseNumericFlags` the flag selects radix and prefix
(the prefix is applied to the fixed-width integer case only — the
`*big.Int` case appends bare digits in the radix, as in the source);
strings follow the bare/raw/quoted decision chain; booleans render
`true`/`false`; a suffixed decimal renders number then suffix. -/
def ValueE.render (v : ValueE) (o : ValueOpts) : Option (List Nat) :=
  match v.val with
  | .nullV => some [110, 117, 108, 108]
  | other =>
    let bp : Nat × List Nat :=
      if o.useNumericFlags then
        match v.flag with
        | .flagBinary => (2, [48, 98])
        | .flagOctal => (8, [48, 111])
        | .flagHexadecimal => (16, [48, 120])
        | _ => (10, [])
      else (10, [])
    match other with
    | .i64 x => some ((if bp.1 != 10 then bp.2 else []) ++ intToBase bp.1 x)
    | .bigInt x => some (intToBase bp.1 x)
    | .boolV b => some (if b then [116, 114, 117, 101] else [102, 97, 108, 115, 101])
    | .strV x =>
      let bare := isBareIdentifier x strictFlags
      if v.flag = .flagBareSuffixed ||
         (!o.noBare && (o.noQuotes || (bare && o.simpleString))) then some x
      else if v.flag = .flagRaw && o.strictStringFlags then some (appendRawString [] x)
      else if v.flag = .flagQuoted || (v.flag = .flagRaw && !o.strictStringFlags) then
        some (appendQuotedString [] x 34)
      else if bare && !o.noBare then some x
      else some (appendQuotedString [] x 34)
    | .suffixedDec num suf => some (num ++ suf)
    | .floatUnmodelled _ => none
    | .nullV => some [110, 117, 108, 108]

/-- `Value.string(opts)`: the parenthesized type annotation, then the
rendered value. -/
def ValueE.vstring (v : ValueE) (o : ValueOpts) : Option (List Nat) :=
  (v.render o).map fun bs =>
    (if v.typeA.length > 0 then 40 :: v.typeA ++ [41] else []) ++ bs

/-- `Value.String()`: `voStrictStringFlags | voUseNumericFlags`. -/
def ValueE.stringFmt (v : ValueE) : Option (List Nat) :=
  v.vstring { strictStringFlags := true, useNumericFlags := true }

/-- `Value.FormattedString()`: `voNoBare | voUseNumericFlags`. -/
def ValueE.formattedString (v : ValueE) : Option (List Nat) :=
  v.vstring { noBare := true, useNumericFlags := true }

/-- `Value.UnformattedString()`: `voNoBare`. -/
def ValueE.unformattedString (v : ValueE) : Option (List Nat) :=
  v.vstring { noBare := true }

/-- `Value.NodeNameString()`: `voSimpleString`. -/
def ValueE.nodeNameString (v : ValueE) : Option (List Nat) :=
  v.vstring { simpleString := true }

/-- `Value.ValueString()`: `value(voNoQuotes | voUseNumericFlags)`,
without the type annotation. -/
def ValueE.valueString (v : ValueE) : Option (List Nat) :=
  v.render { noQuotes := true, useNumericFlags := true }

/-! ### document Properties, deterministic (ordered) build

Embeds properties_ordered.go (build tag `kdldeterministic`), the
order-preserving implementation the spec's property-ordering claims are
about.  The Go `map[string]*Value` becomes an association list updated
in place (last write wins); `order` lists keys by first insertion. -/

/-- Lookup in the association list modelling `p.props`. -/
def propsGet (m : List (List Nat × ValueE)) (k : List Nat) : Option ValueE :=
  (m.find? (fun e => e.1 = k)).map (·.2)

/-- Map write `p.props[name] = val`: replace the existing entry or
append a new one. -/
def propsSet (m : List (List Nat × ValueE)) (k : List Nat) (v : ValueE) :
    List (List Nat × ValueE) :=
  match m with
  | [] => [(k, v)]
  | e :: rest => if e.1 = k then (k, v) :: rest else e :: propsSet rest k v

/-- `document.Properties` (ordered variant). -/
structure PropertiesO where
  order : List (List Nat)
  props : List (List Nat × ValueE)
deriving DecidableEq, Repr

/-- The freshly allocated empty property collection. -/
def PropertiesO.empty : PropertiesO := ⟨[], []⟩

/-- `Properties.Add(name, val)`: the key joins `order` only when absent
from the map, then the map entry is written (last write wins). -/
def PropertiesO.add (p : PropertiesO) (name : List Nat) (val : ValueE) : PropertiesO :=
  { order := if (propsGet p.props name).isSome then p.order else p.order ++ [name]
    props := propsSet p.props name val }

/-- `Properties.Get(key)`. -/
def PropertiesO.get (p : PropertiesO) (key : List Nat) : Option ValueE :=
  propsGet p.props key

/-- `Properties.Len()`. -/
def PropertiesO.len (p : PropertiesO) : Nat := p.order.length

/-- `Properties.Exist()`. -/
def PropertiesO.existB (p : PropertiesO) : Bool := 0 < p.order.length

/-- Shared body of `Properties.String` / `Properties.UnformattedString`
(ordered variant): for each key in insertion order, a space, the key
(bare when it qualifies, else quoted), `=`, and the value rendered with
or without its format flags. -/
def PropertiesO.render (p : PropertiesO) (useFlags : Bool) : Option (List Nat) :=
  p.order.foldlM
    (fun acc k => do
      -- Go indexes p.props[k]; a missing key would make FormattedString
      -- nil-dereference, which cannot happen since order mirrors the map.
      let v ← propsGet p.props k
      let vs ← if useFlags then v.formattedString else v.unformattedString
      pure (acc ++ [32] ++
        (if 0 < k.length && isBareIdentifier k strictFlags then k
         else appendQuotedString [] k 34) ++ [61] ++ vs))
    []

/-! ### document/node.go: Node and its writer -/

/-- `document.Node` (the `Comment` field is omitted: comment capture is
disabled in the modelled parser configuration, so it is always nil and
contributes nothing to any behavior proved here). -/
inductive NodeE where
  | mk (name : Option ValueE) (typeA : List Nat) (args : List ValueE)
       (props : PropertiesO) (children : List NodeE)

/-- The freshly created empty node (`NewNode`). -/
def NodeE.empty : NodeE := .mk none [] [] PropertiesO.empty []

def NodeE.name : NodeE → Option ValueE | .mk n _ _ _ _ => n
def NodeE.typeA : NodeE → List Nat | .mk _ t _ _ _ => t
def NodeE.args : NodeE → List ValueE | .mk _ _ a _ _ => a
def NodeE.props : NodeE → PropertiesO | .mk _ _ _ p _ => p
def NodeE.children : NodeE → List NodeE | .mk _ _ _ _ c => c

/-- `Node.SetNameToken`. -/
def NodeE.setNameToken (n : NodeE) (t : Token) : Except Unit NodeE := do
  let v ← valueFromToken t
  match n with
  | .mk _ ty a p c => .ok (.mk (some v) ty a p c)

/-- Set the node's type annotation (`node.Type = ...`). -/
def NodeE.setTypeA (n : NodeE) (ty : List Nat) : NodeE :=
  match n with
  | .mk nm _ a p c => .mk nm ty a p c

/-- `Node.AddArgumentToken(t, typeAnnot)`. -/
def NodeE.addArgumentToken (n : NodeE) (t typeAnnot : Token) : Except Unit NodeE := do
  let v ← valueFromToken t
  let v := if typeAnnot.valid then { v with typeA := typeAnnot.data } else v
  match n with
  | .mk nm ty a p c => .ok (.mk nm ty (a ++ [v]) p c)

/-- `Node.AddPropertyToken(name, value, typeAnnot)`: both tokens become
Values, the annotation attaches to the value, and the property key is
the name Value's `ValueString()` (total for the identifier/string
tokens the grammar admits as property names; `.error` stands for the
unreachable unmodelled-float rendering). -/
def NodeE.addPropertyToken (n : NodeE) (nameT valueT typeAnnot : Token) :
    Except Unit NodeE := do
  let nt ← valueFromToken nameT
  let vt ← valueFromToken valueT
  let vt := if typeAnnot.valid then { vt with typeA := typeAnnot.data } else vt
  match nt.valueString with
  | none => .error ()
  | some key =>
    match n with
    | .mk nm ty a p c => .ok (.mk nm ty a (p.add key vt) c)

/-- `Node.AddNode(child)`. -/
def NodeE.addChild (n child : NodeE) : NodeE :=
  match n with
  | .mk nm ty a p c => .mk nm ty a p (c ++ [child])

/-- `document.NodeWriteOptions`. -/
structure NodeWriteOptions where
  leadingTrailingSpace : Bool
  nameAndType : Bool
  depth : Nat
  indent : List Nat
  ignoreFlags : Bool
  addSemicolons : Bool
  addEquals : Bool
  addColons : Bool
deriving DecidableEq, Repr

/-- `bytes.Repeat(indent, depth)`. -/
def indentRepeat (indent : List Nat) (depth : Nat) : List Nat :=
  (List.replicate depth indent).flatten

mutual

/-- `Node.WriteToOptions` (document/node.go), for nodes without
comments (see `NodeE`).  The writer-error plumbing of the source is
dropped: writes to a `strings.Builder`/`bytes.Buffer` never fail, so
`none` arises only from unmodelled float rendering. -/
def NodeE.writeToOptions (o : NodeWriteOptions) : NodeE → Option (List Nat)
  | .mk name ty args props children => do
    let indent := if 0 < o.depth && o.leadingTrailingSpace then indentRepeat o.indent o.depth else []
    let b0 : List Nat := indent
    let b1 ←
      if o.nameAndType then do
        let tyPart : List Nat := if 0 < ty.length then 40 :: ty ++ [41] else []
        let nm ←
          match name with
          | some v => v.nodeNameString
          | none => none
        pure (b0 ++ tyPart ++ nm)
      else pure b0
    let b2 : List Nat :=
      if o.addEquals && 0 < args.length && !props.existB && children.length = 0 then
        b1 ++ [32, 61]
      else if o.addColons && 0 < args.length && !props.existB && children.length = 0 then
        b1 ++ [58]
      else b1
    let b3 ← args.enum.foldlM
      (fun acc iv => do
        let s ← if o.ignoreFlags then iv.2.unformattedString else iv.2.formattedString
        pure (acc ++ (if o.nameAndType || 0 < iv.1 then [32] else []) ++ s))
      b2
    let b4 ← if props.existB then (props.render !o.ignoreFlags).map (b3 ++ ·) else pure b3
    let b5 ←
      if 0 < children.length then do
        let inner ← NodeE.writeChildren { o with depth := o.depth + 1 } children
        pure (b4 ++ [32, 123, 10] ++ inner ++
          (if 0 < o.depth then indentRepeat o.indent o.depth else []) ++ [125])
      else if o.addSemicolons then pure (b4 ++ [59])
      else pure b4
    if o.leadingTrailingSpace then pure (b5 ++ [10]) else pure b5

/-- The child loop of `WriteToOptions`: children render sequentially
into the same output. -/
def NodeE.writeChildren (o : NodeWriteOptions) : List NodeE → Option (List Nat)
  | [] => some []
  | n :: rest => do
    let s ← NodeE.writeToOptions o n
    let r ← NodeE.writeChildren o rest
    pure (s ++ r)

end

/-- Default `NodeWriteOptions` used by the generator for top-level
nodes (internal/generator/generator.go with `DefaultOptions`:
tab indent, flags honored). -/
def generatorWriteOptions : NodeWriteOptions :=
  { leadingTrailingSpace := true
    nameAndType := true
    depth := 0
    indent := [9]
    ignoreFlags := false
    addSemicolons := false
    addEquals := false
    addColons := false }

/-- `Generator.Generate` with the default options over a document's
top-level nodes. -/
def generateDoc (nodes : List NodeE) : Option (List Nat) :=
  nodes.foldlM (fun acc n => (n.writeToOptions generatorWriteOptions).map (acc ++ ·)) []

/-! ### internal/parser: grammar state machine

States and context from context.go, transition table from
transitions.go.  Comment capture (the `ParseComments` flag, off by
default) is not modelled: its only effect is to populate the `Comment`
fields omitted from `NodeE`.

Go's context keeps a stack of node pointers and `addNode` links a new
node into its parent (or the document) at creation time, mutating it in
place afterwards.  With immutable values the same tree results from
linking each finished node into its parent when it is popped: siblings
are completed in creation order (the stack discipline forces a node to
be popped before its next sibling is created), so the children lists
agree.  Each stack entry carries `true` when the Go code would have
linked it (`addNode`) and `false` for the detached nodes of
`createNode` (slashdash-ignored nodes), which are dropped on pop.
Stack underflow in `currentNode` is a Go panic and `popNode`/`popState`
underflow returns `errNodeStackEmpty`/`errStateStackEmpty`; all three
are `.error` here. -/

/-- `parserState` (context.go). -/
inductive ParserState where
  | document
  | node
  | nodeParams
  | nodeEnd
  | argProp
  | property
  | propertyValue
  | children
  | typeAnnotSt
  | typeDone
deriving DecidableEq, Repr

/-- `parser.ParseContext` (comment-capture fields omitted, see above). -/
structure ParseContext where
  doc : List NodeE
  states : List ParserState
  state : ParserState
  nodeStack : List (NodeE × Bool)
  ident : Token
  typeAnnot : Token
  continuation : Bool
  ignoreNextNode : Bool
  ignoreNextArgProp : Bool
  ignoreChildren : Nat
  relaxed : RelaxedFlags

/-- `pushState`. -/
def ParseContext.pushState (c : ParseContext) (s : ParserState) : ParseContext :=
  { c with states := c.states ++ [c.state], state := s }

/-- `popState`. -/
def ParseContext.popState (c : ParseContext) : Except Unit ParseContext :=
  match c.states.getLast? with
  | none => .error ()
  | some s => .ok { c with state := s, states := c.states.dropLast }

/-- `addNode`: push a fresh node that will be linked into its parent
(or the document) when popped. -/
def ParseContext.addNodeC (c : ParseContext) : ParseContext :=
  { c with nodeStack := c.nodeStack ++ [(NodeE.empty, true)] }

/-- `createNode`: push a fresh detached node (slashdash target). -/
def ParseContext.createNodeC (c : ParseContext) : ParseContext :=
  { c with nodeStack := c.nodeStack ++ [(NodeE.empty, false)] }

/-- Apply a fallible mutation to `currentNode()` (Go mutates through
the stack-top pointer; an empty stack is a Go panic). -/
def ParseContext.modifyCurrent (c : ParseContext) (f : NodeE → Except Unit NodeE) :
    Except Unit ParseContext :=
  match c.nodeStack.getLast? with
  | none => .error ()
  | some (n, att) => do
    let n2 ← f n
    .ok { c with nodeStack := c.nodeStack.dropLast ++ [(n2, att)] }

/-- Apply an infallible mutation to `currentNode()`. -/
def ParseContext.modifyCurrentP (c : ParseContext) (f : NodeE → NodeE) :
    Except Unit ParseContext :=
  c.modifyCurrent (fun n => .ok (f n))

/-- `popNode`: remove the finished top node; when it was created with
`addNode`, link it into the node below it (or the document if it was
top-level). -/
def ParseContext.popNode (c : ParseContext) : Except Unit ParseContext :=
  match c.nodeStack.getLast? with
  | none => .error ()
  | some (n, att) =>
    let rest := c.nodeStack.dropLast
    if att then
      match rest.getLast? with
      | some (p, patt) =>
        .ok { c with nodeStack := rest.dropLast ++ [(p.addChild n, patt)] }
      | none => .ok { c with doc := c.doc ++ [n], nodeStack := [] }
    else .ok { c with nodeStack := rest }

/-- `popNodeAndState`: state first, then node, as in the source. -/
def ParseContext.popNodeAndState (c : ParseContext) : Except Unit ParseContext := do
  let c1 ← c.popState
  c1.popNode

/-- Shared slashdash-aware argument commit used by the `stateArgProp`
handlers: consume a pending slashdash by clearing the flag, otherwise
`AddArgumentToken(c.ident, c.typeAnnot)` on the current node. -/
def ParseContext.commitPendingArg (c : ParseContext) : Except Unit ParseContext :=
  if c.ignoreNextArgProp then .ok { c with ignoreNextArgProp := false }
  else c.modifyCurrent (fun n => n.addArgumentToken c.ident c.typeAnnot)

/-- Keys of the `stateTransitions` table (transitions.go): which
(state, token-kind-or-class) pairs have an entry. -/
def hasTransition : ParserState → TokenID → Bool
  | .document, .whitespace | .document, .classIdentifier | .document, .parensOpen
  | .document, .classTerminator | .document, .classComment | .document, .tokenComment => true
  | .children, .whitespace | .children, .classComment | .children, .tokenComment
  | .children, .parensOpen | .children, .newline | .children, .classIdentifier
  | .children, .braceClose => true
  | .typeAnnotSt, .bareIdentifier | .typeAnnotSt, .classString => true
  | .typeDone, .parensClose => true
  | .node, .whitespace | .node, .classTerminator | .node, .equals => true
  | .nodeParams, .whitespace | .nodeParams, .equals | .nodeParams, .tokenComment
  | .nodeParams, .multiLineComment | .nodeParams, .singleLineComment
  | .nodeParams, .continuation | .nodeParams, .parensOpen | .nodeParams, .bareIdentifier
  | .nodeParams, .suffixedDecimal | .nodeParams, .classString
  | .nodeParams, .classNonStringValue | .nodeParams, .braceOpen
  | .nodeParams, .classTerminator => true
  | .nodeEnd, .whitespace | .nodeEnd, .classEndOfLine => true
  | .property, .equals => true
  | .argProp, .tokenComment | .argProp, .braceOpen | .argProp, .equals
  | .argProp, .whitespace | .argProp, .classTerminator | .argProp, .classValue => true
  | .propertyValue, .parensOpen | .propertyValue, .classValue => true
  | _, _ => false

/-- Node-declaration handler shared by `stateDocument` and
`stateChildren` for ClassIdentifier tokens: create (detached) or add
the node, set its name from the token, attach a pending type
annotation, and push `stateNode`.  `detach` is the guard of the
`createNode` branch (`ignoreNextNode` at top level, additionally
`ignoreChildren > 0` inside children). -/
def beginNode (c : ParseContext) (t : Token) (detach : Bool) :
    Except Unit ParseContext := do
  let c1 :=
    if detach then { c.createNodeC with ignoreNextNode := false }
    else c.addNodeC
  let c2 ← c1.modifyCurrent (fun n => n.setNameToken t)
  let c3 ←
    if c2.typeAnnot.valid then do
      let cx ← c2.modifyCurrentP (fun n => n.setTypeA c2.typeAnnot.data)
      pure { cx with typeAnnot := Token.cleared }
    else pure c2
  .ok (c3.pushState .node)

/-- The transition bodies of `stateTransitions` (transitions.go), one
case per table entry; `key` is the kind or class under which the entry
is stored.  Comment-capture blocks (`ParseComments`) are omitted (see
the section comment); every other statement is mirrored, including the
quirks called out in the source (type-annotation checks on whitespace,
the suffixed-decimal handler clearing `typeAnnot` before using it, the
unreachable tail of the ClassNonStringValue handler, and `continuation`
surviving `stateNodeEnd`). -/
def applyTransition (st : ParserState) (key : TokenID) (c : ParseContext) (t : Token) :
    Except Unit ParseContext :=
  match st, key with
  | .document, .whitespace =>
    if c.typeAnnot.valid then .error () else .ok c
  | .document, .classIdentifier => beginNode c t c.ignoreNextNode
  | .document, .parensOpen => .ok (c.pushState .typeAnnotSt)
  | .document, .classTerminator =>
    if c.typeAnnot.valid then .error () else .ok c
  | .document, .classComment =>
    if c.typeAnnot.valid then .error () else .ok c
  | .document, .tokenComment => .ok { c with ignoreNextNode := true }
  | .children, .whitespace =>
    if c.typeAnnot.valid then .error () else .ok c
  | .children, .classComment =>
    if c.typeAnnot.valid then .error () else .ok c
  | .children, .tokenComment => .ok { c with ignoreNextNode := true }
  | .children, .parensOpen => .ok (c.pushState .typeAnnotSt)
  | .children, .newline => .ok c
  | .children, .classIdentifier =>
    beginNode c t (c.ignoreNextNode || 0 < c.ignoreChildren)
  | .children, .braceClose =>
    let c1 := if 0 < c.ignoreChildren then { c with ignoreChildren := c.ignoreChildren - 1 } else c
    c1.popState
  | .typeAnnotSt, .bareIdentifier => .ok { c with typeAnnot := t, state := .typeDone }
  | .typeAnnotSt, .classString => .ok { c with typeAnnot := t, state := .typeDone }
  | .typeDone, .parensClose => c.popState
  | .node, .whitespace => .ok { c with state := .nodeParams }
  | .node, .classTerminator =>
    if c.continuation then .ok c else c.popNodeAndState
  | .node, .equals =>
    if c.relaxed.yamlTomlAssignments then .ok { c with state := .nodeParams }
    else .error ()
  | .nodeParams, .whitespace =>
    if c.typeAnnot.valid then .error () else .ok c
  | .nodeParams, .equals =>
    if c.relaxed.yamlTomlAssignments && !c.typeAnnot.valid && !c.ident.valid then .ok c
    else .error ()
  | .nodeParams, .tokenComment => .ok { c with ignoreNextArgProp := true }
  | .nodeParams, .multiLineComment =>
    if c.typeAnnot.valid then .error () else .ok c
  | .nodeParams, .singleLineComment => .ok { c with state := .nodeEnd }
  | .nodeParams, .continuation => .ok { c with continuation := true }
  | .nodeParams, .parensOpen => .ok (c.pushState .typeAnnotSt)
  | .nodeParams, .bareIdentifier =>
    if c.relaxed.nginxSyntax then .ok { c with ident := t, state := .argProp }
    else .ok { c with ident := t, state := .property }
  | .nodeParams, .suffixedDecimal => do
    -- the source clears typeAnnot and ident first, so the argument is
    -- added with an already-cleared annotation
    let c1 := { c with typeAnnot := Token.cleared, ident := Token.cleared }
    let c2 ←
      if c1.ignoreNextArgProp then pure { c1 with ignoreNextArgProp := false }
      else c1.modifyCurrent (fun n => n.addArgumentToken t c1.typeAnnot)
    .ok { c2 with state := .nodeParams }
  | .nodeParams, .classString => .ok { c with ident := t, state := .argProp }
  | .nodeParams, .classNonStringValue =>
    -- the handler returns here; its remaining statements are
    -- unreachable in the source
    .ok { c with ident := t, state := .argProp }
  | .nodeParams, .braceOpen =>
    let c1 :=
      if c.ignoreNextArgProp || 0 < c.ignoreChildren then
        { c with ignoreNextArgProp := false, ignoreChildren := c.ignoreChildren + 1 }
      else c
    .ok (c1.pushState .children)
  | .nodeParams, .classTerminator =>
    if c.continuation then .ok c
    else if c.typeAnnot.valid then .error ()
    else c.popNodeAndState
  | .nodeEnd, .whitespace => .ok c
  | .nodeEnd, .classEndOfLine =>
    if c.continuation then .ok { c with state := .nodeParams }
    else c.popNodeAndState
  | .property, .equals =>
    if c.typeAnnot.valid then .error () else .ok { c with state := .propertyValue }
  | .argProp, .tokenComment => do
    let c1 ← c.commitPendingArg
    .ok { c1 with typeAnnot := Token.cleared, ident := Token.cleared, ignoreNextArgProp := true }
  | .argProp, .braceOpen => do
    let c1 ←
      if c.ident.valid then do
        let cx ← c.commitPendingArg
        pure { cx with typeAnnot := Token.cleared, ident := Token.cleared }
      else pure c
    let c2 :=
      if c1.ignoreNextArgProp || 0 < c1.ignoreChildren then
        { c1 with ignoreNextArgProp := false, ignoreChildren := c1.ignoreChildren + 1 }
      else c1
    .ok (c2.pushState .children)
  | .argProp, .equals =>
    if c.typeAnnot.valid ||
       (c.ident.id != .bareIdentifier && c.ident.id != .quotedString && c.ident.id != .rawStr) then
      .error ()
    else .ok { c with state := .propertyValue }
  | .argProp, .whitespace => do
    let c1 ← c.commitPendingArg
    .ok { c1 with typeAnnot := Token.cleared, ident := Token.cleared, state := .nodeParams }
  | .argProp, .classTerminator => do
    let c1 ←
      if c.ident.valid then do
        let cx ← c.commitPendingArg
        pure { cx with typeAnnot := Token.cleared, ident := Token.cleared }
      else pure c
    c1.popNodeAndState
  | .argProp, .classValue => do
    let c1 ← c.commitPendingArg
    .ok { c1 with typeAnnot := Token.cleared, ident := t }
  | .propertyValue, .parensOpen => .ok (c.pushState .typeAnnotSt)
  | .propertyValue, .classValue => do
    let c1 ←
      if c.ignoreNextArgProp then pure { c with ignoreNextArgProp := false }
      else c.modifyCurrent (fun n => n.addPropertyToken c.ident t c.typeAnnot)
    .ok { c1 with typeAnnot := Token.cleared, ident := Token.cleared, state := .node }
  | _, _ => .error ()

/-- Modelled from the spec: the parser's dispatch (`Parser.Parse`, not
under src/; only its table, context and callers are).  Per §4.2 the
table is keyed by state and token-class-or-kind, so a token is
dispatched under its own kind when the current state has an entry for
it, otherwise under the first of its classes (in `tokenClasses` order)
that has one; a token with no matching entry is a hard parse error. -/
def effectiveKey (st : ParserState) (id : TokenID) : Option TokenID :=
  if hasTransition st id then some id
  else id.classes.find? (fun cl => hasTransition st cl)

/-- Modelled from the spec: one `Parser.Parse` step (see
`effectiveKey`). -/
def parseStep (c : ParseContext) (t : Token) : Except Unit ParseContext :=
  match effectiveKey c.state t.id with
  | none => .error ()
  | some k => applyTransition c.state k c t

/-- The fresh context: `stateDocument`, empty document, empty stacks
(§4.2: `Document` is initial). -/
def initContext (rf : RelaxedFlags) : ParseContext :=
  { doc := []
    states := []
    state := .document
    nodeStack := []
    ident := Token.cleared
    typeAnnot := Token.cleared
    continuation := false
    ignoreNextNode := false
    ignoreNextArgProp := false
    ignoreChildren := 0
    relaxed := rf }

/-- The parse loop of kdl.go's `parse`: feed every token (the scanner
emits a final EOF token) through `Parse` and return the document.  The
caller performs no final-state check; an unterminated construct fails
because the EOF token has no transition in its state. -/
def runParser (rf : RelaxedFlags) (tokens : List Token) : Except Unit (List NodeE) := do
  let c ← tokens.foldlM parseStep (initContext rf)
  .ok c.doc

/-! ### Concrete token sequences

The scanner (internal/tokenizer/scanner.go) is not embedded; the token
sequences below are its output for the concrete inputs of the claims,
derived by hand from `readNext`/readtype.go: a run of identifier bytes
is one BareIdentifier token, a space is one Whitespace token, the
two-byte slashdash marker is one TokenComment token, a double-quoted
region (scanned to the first
unescaped closing quote, with no escape validation) is one QuotedString
token carrying the quotes, a digit run is one Decimal token, a line
break is one Newline token, and `Scan` delivers one final EOF token. -/

/-- Helper: byte list of an ASCII string literal. -/
def asciiBytes (s : String) : List Nat := s.toList.map Char.toNat

def bareTok (s : String) : Token := ⟨.bareIdentifier, asciiBytes s, 0, 0⟩
def wsTok : Token := ⟨.whitespace, [32], 0, 0⟩
def quotedTok (s : String) : Token := ⟨.quotedString, asciiBytes s, 0, 0⟩
def equalsTok : Token := ⟨.equals, [61], 0, 0⟩
def decimalTok (s : String) : Token := ⟨.decimal, asciiBytes s, 0, 0⟩
def newlineTok : Token := ⟨.newline, [10], 0, 0⟩
def eofTok : Token := ⟨.eof, [], 0, 0⟩
def slashdashTok : Token := ⟨.tokenComment, asciiBytes "/-", 0, 0⟩

/-! ## Claim theorems -/

/-- C2: the claim states that for every string of Unicode scalar values
`UnquoteString (QuoteString s) = s` with no error.  The code violates
it: for `s = "\x01"` (the single scalar U+0001), `QuoteString` emits
the bytes `"\u1"` — `\u` followed by bare hex digits with no braces
(document/strings.go line 106) — while `UnquoteString` accepts only the
braced form `\u{...}` and returns ErrInvalid.  The two functions are
designed as inverses for the KDL quoted-string format (whose tests and
`\u{0020}` cases use braces), so the quoter's brace-less escape is a
slip in the code and the round-trip fails on every string containing a
control character other than `\n \r \t \b \f`. -/
theorem c2_quote_unquote_breaks_on_control_byte :
    quoteString [1] = [34, 92, 117, 49, 34] ∧
    unquoteString (quoteString [1]) = .error () := ⟨rfl, rfl⟩

/-- Tokens of the input: foo, space, slashdash, "ignored", space,
"kept" (see the section comment on token sequences). -/
def c6Tokens : List Token :=
  [bareTok "foo", wsTok, slashdashTok, quotedTok "\"ignored\"", wsTok,
   quotedTok "\"kept\"", eofTok]

/-- C6: a slashdash before a single argument discards exactly that one
item: parsing the node `foo` with a slashdashed `"ignored"` followed by
`"kept"` succeeds and yields one node named `foo` whose argument list
is exactly the one string `kept`. -/
theorem c6_slashdash_discards_exactly_one_argument :
    runParser strictFlags c6Tokens =
      .ok [.mk (some ⟨[], .strV (asciiBytes "foo"), .flagNone⟩) []
            [⟨[], .strV (asciiBytes "kept"), .flagQuoted⟩] PropertiesO.empty []] := rfl

/-- Tokens of `n a=1 b=2 a=3` (one node with that parameter list). -/
def c5Tokens : List Token :=
  [bareTok "n", wsTok, bareTok "a", equalsTok, decimalTok "1", wsTok, bareTok "b", equalsTok,
   decimalTok "2", wsTok, bareTok "a", equalsTok, decimalTok "3", eofTok]

/-- The document parsed from `n a=1 b=2 a=3`: one node, no arguments,
exactly one property `a` (value 3) listed before `b` (value 2) —
`a` keeps its original first-seen position in the order list. -/
def c5Expected : List NodeE :=
  [.mk (some ⟨[], .strV (asciiBytes "n"), .flagNone⟩) [] []
    ⟨[asciiBytes "a", asciiBytes "b"],
     [(asciiBytes "a", ⟨[], .i64 3, .flagNone⟩), (asciiBytes "b", ⟨[], .i64 2, .flagNone⟩)]⟩ []]

/-- Tokens of `a "\u{1}"`. -/
def c1Tokens : List Token := [bareTok "a", wsTok, quotedTok "\"\\u{1}\"", eofTok]

/-- The document parse produces from `a "\u{1}"`: one node `a` with the
single string argument U+0001, format flag Quoted. -/
def c1Doc : List NodeE :=
  [.mk (some ⟨[], .strV (asciiBytes "a"), .flagNone⟩) []
    [⟨[], .strV [1], .flagQuoted⟩] PropertiesO.empty []]

/-- Tokens of `a "\u1"` followed by the serializer's trailing newline:
re-tokenizing the format-preserving serialization of `c1Doc` (the
scanner scans the quoted region to the closing quote without validating
escapes, so `"\u1"` is one QuotedString token). -/
def c1ReTokens : List Token :=
  [bareTok "a", wsTok, quotedTok "\"\\u1\"", newlineTok, eofTok]

/-- C1: the claim states serialize-parse-serialize is a stable fixed
point for every parsed document.  The code violates it through the same
quoting slip as C2: the document parsed from `a "\u{1}"` serializes
(format-preserving defaults) to `a "\u1"` + newline, and parsing that
output fails (UnquoteString rejects the brace-less `\u1`), so the
second serialization never happens, let alone reproduces the first. -/
theorem c1_serialize_parse_serialize_not_fixed_point :
    runParser strictFlags c1Tokens = .ok c1Doc ∧
    generateDoc c1Doc = some (asciiBytes "a \"\\u1\"" ++ [10]) ∧
    runParser strictFlags c1ReTokens = .error () := ⟨rfl, rfl, rfl⟩

/-- Tokens of `foo bar` on a line of its own. -/
def c7Tokens : List Token := [bareTok "foo", wsTok, bareTok "bar", newlineTok, eofTok]

/-- C7 counterexample: the claim says every bare identifier in a node's
parameter region is provisionally held and committed as an argument by
following whitespace or end-of-node.  Under the strict dialect the code
instead sends a bare identifier to `stateProperty`, whose only
transition is `=`; parsing `foo bar` therefore fails on the newline
instead of yielding a node with argument `bar`. -/
theorem c7_counterexample_bare_identifier_not_held :
    runParser strictFlags c7Tokens = .error () := rfl

/-- C8 counterexample: the claim says the binary suffix is
case-sensitive on the trailing `b`, making `kB` an error.  The code
accepts `'b' || 'B'` (suffixeddec.go line 42) and scales by 1024. -/
theorem c8_counterexample_uppercase_trailing_b :
    asNumberScaled 1 [107, 66] = .ok 1024 := by
  simp [asNumberScaled, asNumberScaled.asNumberMult]

/-- C9 counterexample: the claim says a digit count outside 1-6 is an
error, but the zero-digit escape `\u{}` (when not at the end of the
string) is accepted and appends U+0000: unquoting `"\u{}x"` yields the
two bytes 0x00 `x` with no error. -/
theorem c9_counterexample_zero_digit_escape :
    unquoteString [34, 92, 117, 123, 125, 120, 34] = .ok [0, 120] := rfl

/-! Helper lemmas about the association-list map model. -/

theorem propsGet_cons (e : List Nat × ValueE) (l : List (List Nat × ValueE)) (k : List Nat) :
    propsGet (e :: l) k = if e.1 = k then some e.2 else propsGet l k := by
  by_cases h : e.1 = k <;> simp [propsGet, List.find?_cons, h]

theorem propsGet_set_self (m : List (List Nat × ValueE)) (k : List Nat) (v : ValueE) :
    propsGet (propsSet m k v) k = some v := by
  induction m with
  | nil => simp [propsSet, propsGet, List.find?_cons]
  | cons e rest ih =>
    by_cases h : e.1 = k
    · simp [propsSet, h, propsGet_cons]
    · rw [propsSet, if_neg h, propsGet_cons, if_neg h]
      exact ih

theorem propsGet_set_other (m : List (List Nat × ValueE)) (k k2 : List Nat) (v : ValueE)
    (h : k2 ≠ k) : propsGet (propsSet m k v) k2 = propsGet m k2 := by
  have hne : ¬(k = k2) := fun hh => h hh.symm
  induction m with
  | nil => simp [propsSet, propsGet_cons, hne, propsGet]
  | cons e rest ih =>
    by_cases he : e.1 = k
    · rw [propsSet, if_pos he, propsGet_cons, propsGet_cons, he, if_neg hne, if_neg hne]
    · rw [propsSet, if_neg he, propsGet_cons, propsGet_cons, ih]

/-- C5: parsing the node `n a=1 b=2 a=3` (order-preserving Properties,
the kdldeterministic build of part properties_ordered.go) yields exactly
one property `a`, carrying the last-written value 3, at `a`'s original
first-seen index (position 0, before `b`); in general `Properties.Add`
appends a key to the order list only on first insertion (keys stay
unique, the order of an existing key is unchanged) and the map write
makes the last value win without disturbing other keys. -/
theorem c5_properties_insertion_order_last_write_wins :
    runParser strictFlags c5Tokens = .ok c5Expected ∧
    (∀ (p : PropertiesO) (name : List Nat) (v : ValueE),
      (p.get name).isSome = true → (p.add name v).order = p.order) ∧
    (∀ (p : PropertiesO) (name : List Nat) (v : ValueE),
      (p.get name).isSome = false → (p.add name v).order = p.order ++ [name]) ∧
    (∀ (p : PropertiesO) (name : List Nat) (v : ValueE),
      (p.add name v).get name = some v) ∧
    (∀ (p : PropertiesO) (name k : List Nat) (v : ValueE),
      k ≠ name → (p.add name v).get k = p.get k) := by
  refine ⟨rfl, ?_, ?_, ?_, ?_⟩
  · intro p name v h
    simp only [PropertiesO.get] at h
    simp [PropertiesO.add, h]
  · intro p name v h
    simp only [PropertiesO.get] at h
    simp [PropertiesO.add, h]
  · intro p name v
    simp [PropertiesO.add, PropertiesO.get, propsGet_set_self]
  · intro p name k v h
    simp [PropertiesO.add, PropertiesO.get, propsGet_set_other _ _ _ _ h]

/-- Witness for C5 at concrete inputs: a one-entry collection keyed
`"a"` (byte 97). -/
theorem c5_witness :
    (({ order := [[97]], props := [([97], ⟨[], GoValue.i64 1, .flagNone⟩)] } :
        PropertiesO).add [97] ⟨[], GoValue.i64 3, .flagNone⟩).order = [[97]] ∧
    (PropertiesO.empty.add [97] ⟨[], GoValue.i64 1, .flagNone⟩).order = [] ++ [[97]] ∧
    (({ order := [[97]], props := [([97], ⟨[], GoValue.i64 1, .flagNone⟩)] } :
        PropertiesO).add [97] ⟨[], GoValue.i64 3, .flagNone⟩).get [97] =
      some ⟨[], GoValue.i64 3, .flagNone⟩ ∧
    (({ order := [[97]], props := [([97], ⟨[], GoValue.i64 1, .flagNone⟩)] } :
        PropertiesO).add [97] ⟨[], GoValue.i64 3, .flagNone⟩).get [98] =
      ({ order := [[97]], props := [([97], ⟨[], GoValue.i64 1, .flagNone⟩)] } :
        PropertiesO).get [98] := by
  refine ⟨?_, ?_, ?_, ?_⟩
  · exact c5_properties_insertion_order_last_write_wins.2.1 _ [97] _ (by rfl)
  · exact c5_properties_insertion_order_last_write_wins.2.2.1 _ [97] _ (by rfl)
  · exact c5_properties_insertion_order_last_write_wins.2.2.2.1 _ [97] _
  · exact c5_properties_insertion_order_last_write_wins.2.2.2.2 _ [97] [98] _ (by decide)

/-- C10: `UnquoteString` of the empty string is the empty string with
no error; every non-empty input whose first byte is neither a double
nor a single quote is ErrInvalid; and every input that does start with
one of the two quote bytes but is shorter than two bytes or does not
end in its opening quote byte is ErrInvalid. -/
theorem c10_unquote_guards :
    unquoteString [] = .ok [] ∧
    (∀ (c : Nat) (s : List Nat), c ≠ 34 → c ≠ 39 →
      unquoteString (c :: s) = .error ()) ∧
    (∀ (c : Nat) (s : List Nat), c = 34 ∨ c = 39 →
      ((c :: s).length < 2 ∨ (c :: s).getLast? ≠ some c) →
      unquoteString (c :: s) = .error ()) := by
  refine ⟨rfl, ?_, ?_⟩
  · intro c s h1 h2
    simp [unquoteString, h1, h2]
  · intro c s hc hbad
    have hq : (decide (c = 34) || decide (c = 39)) = true := by
      rcases hc with h | h <;> simp [h]
    simp only [unquoteString, hq, if_true, appendUnquotedString, List.head?_cons]
    rw [if_pos]
    rcases hbad with h | h
    · simp only [List.length_cons] at h
      simp [h]
    · simp [bne_iff_ne, h]

/-- Witness for C10 at concrete inputs. -/
theorem c10_witness :
    unquoteString [] = .ok [] ∧
    unquoteString [120] = .error () ∧
    unquoteString [34, 97, 98] = .error () := by
  refine ⟨c10_unquote_guards.1, ?_, ?_⟩
  · exact c10_unquote_guards.2.1 120 [] (by decide) (by decide)
  · exact c10_unquote_guards.2.2 34 [97, 98] (Or.inl rfl) (by decide)

/-! Helper lemmas for C3: containment fails for a needle longer than
the haystack, and the hash search loop returns the least
non-contained marker count. -/

theorem bytesContains_false_of_longer :
    ∀ (s sub : List Nat), s.length < sub.length → bytesContains s sub = false := by
  intro s
  induction s with
  | nil =>
    intro sub h
    simp only [List.length_nil] at h
    have hnp : ¬(sub.isPrefixOf ([] : List Nat) = true) := by
      intro hp
      have hl := (List.isPrefixOf_iff_prefix.mp hp).length_le
      simp only [List.length_nil, Nat.le_zero] at hl
      omega
    rw [bytesContains, if_neg hnp]
  | cons c t ih =>
    intro sub h
    simp only [List.length_cons] at h
    have hnp : ¬(sub.isPrefixOf (c :: t) = true) := by
      intro hp
      have hl := (List.isPrefixOf_iff_prefix.mp hp).length_le
      simp only [List.length_cons] at hl
      omega
    rw [bytesContains, if_neg hnp]
    exact ih sub (by omega)

theorem rawHashSearch_spec (s : List Nat) :
    ∀ (fuel n : Nat), bytesContains s (rawMarker (n + fuel)) = false →
      n ≤ rawHashSearch s n fuel ∧
      bytesContains s (rawMarker (rawHashSearch s n fuel)) = false ∧
      (∀ m, n ≤ m → m < rawHashSearch s n fuel → bytesContains s (rawMarker m) = true) := by
  intro fuel
  induction fuel with
  | zero =>
    intro n h
    rw [rawHashSearch]
    exact ⟨Nat.le_refl n, h, fun m h1 h2 => absurd h2 (Nat.not_lt.mpr h1)⟩
  | succ fuel ih =>
    intro n h
    rw [rawHashSearch]
    by_cases hc : bytesContains s (rawMarker n) = true
    · rw [if_pos hc]
      have h2 : bytesContains s (rawMarker (n + 1 + fuel)) = false := by
        rw [show n + 1 + fuel = n + (fuel + 1) by omega]
        exact h
      obtain ⟨hle, hf, hm⟩ := ih (n + 1) h2
      refine ⟨by omega, hf, fun m h1 h2 => ?_⟩
      by_cases hmn : m = n
      · rw [hmn]; exact hc
      · exact hm m (by omega) h2
    · rw [if_neg hc]
      refine ⟨Nat.le_refl n, by simpa using hc,
        fun m h1 h2 => absurd h2 (Nat.not_lt.mpr h1)⟩

/-- C3: the hash count chosen by `AppendRawString` is the least
`n ≥ 0` such that the content does not contain a double quote followed
by `n` hashes, and the rendered output is `r`, `n` hashes, a quote, the
content, a quote, and `n` hashes. -/
theorem c3_rawstring_minimal_hashes (s : List Nat) :
    bytesContains s (rawMarker (rawStringHashCount s)) = false ∧
    (∀ m, m < rawStringHashCount s → bytesContains s (rawMarker m) = true) ∧
    appendRawString [] s =
      [114] ++ List.replicate (rawStringHashCount s) 35 ++ [34] ++ s ++ [34] ++
        List.replicate (rawStringHashCount s) 35 := by
  have hlong : bytesContains s (rawMarker (0 + (s.length + 1))) = false := by
    apply bytesContains_false_of_longer
    simp only [rawMarker, List.length_cons, List.length_replicate]
    omega
  obtain ⟨_, hf, hm⟩ := rawHashSearch_spec s (s.length + 1) 0 hlong
  refine ⟨hf, fun m hm2 => hm m (Nat.zero_le m) hm2, ?_⟩
  simp [appendRawString, rawStringHashCount, rawMarker]

/-- The magnitude letters accepted by `AsNumber` with the exponent each
selects (both cases of k, m, g, t). -/
def suffixLetterPowers : List (Nat × Nat) :=
  [(107, 1), (75, 1), (109, 2), (77, 2), (103, 3), (71, 3), (116, 4), (84, 4)]

/-- C8 (amended): resolving a suffixed decimal with numeric prefix `x`
as a number multiplies by 1000^n for the one-letter suffixes k/m/g/t
(n = 1..4, case-insensitive) and by 1024^n for the two-letter binary
variants, case-insensitive on BOTH letters — the trailing byte may be
`b` or `B` (the original claim said the trailing `b` was
case-sensitive; suffixeddec.go line 42 accepts both).  An empty suffix
leaves the value unscaled, and every other suffix is an error. -/
theorem c8_suffix_multipliers :
    (∀ x : ℚ, asNumberScaled x [] = .ok x) ∧
    (∀ (x : ℚ) (p : Nat × Nat), p ∈ suffixLetterPowers →
      asNumberScaled x [p.1] = .ok (x * 1000 ^ p.2) ∧
      ∀ b2, b2 = 98 ∨ b2 = 66 → asNumberScaled x [p.1, b2] = .ok (x * 1024 ^ p.2)) ∧
    (∀ (x : ℚ) (c : Nat), c ∉ suffixLetterPowers.map Prod.fst →
      asNumberScaled x [c] = .error ()) ∧
    (∀ (x : ℚ) (c b2 : Nat), b2 ≠ 98 → b2 ≠ 66 → asNumberScaled x [c, b2] = .error ()) ∧
    (∀ (x : ℚ) (c b2 : Nat), b2 = 98 ∨ b2 = 66 → c ∉ suffixLetterPowers.map Prod.fst →
      asNumberScaled x [c, b2] = .error ()) ∧
    (∀ (x : ℚ) (suf : List Nat), 2 < suf.length → asNumberScaled x suf = .error ()) := by
  refine ⟨fun x => rfl, ?_, ?_, ?_, ?_, ?_⟩
  · intro x p hp
    fin_cases hp <;>
      exact ⟨by norm_num [asNumberScaled, asNumberScaled.asNumberMult],
        fun b2 hb2 => by
          rcases hb2 with h | h <;> subst h <;>
            norm_num [asNumberScaled, asNumberScaled.asNumberMult]⟩
  · intro x c hc
    simp only [suffixLetterPowers, List.map_cons, List.map_nil, List.mem_cons,
      List.not_mem_nil, or_false, not_or] at hc
    obtain ⟨n1, n2, n3, n4, n5, n6, n7, n8⟩ := hc
    simp [asNumberScaled, asNumberScaled.asNumberMult, n1, n2, n3, n4, n5, n6, n7, n8]
  · intro x c b2 h98 h66
    simp [asNumberScaled, h98, h66]
  · intro x c b2 hb2 hc
    simp only [suffixLetterPowers, List.map_cons, List.map_nil, List.mem_cons,
      List.not_mem_nil, or_false, not_or] at hc
    obtain ⟨n1, n2, n3, n4, n5, n6, n7, n8⟩ := hc
    rcases hb2 with h | h <;> subst h <;>
      simp [asNumberScaled, asNumberScaled.asNumberMult, n1, n2, n3, n4, n5, n6, n7, n8]
  · intro x suf hlen
    match suf, hlen with
    | a :: b :: d :: t, _ => simp [asNumberScaled]

/-- Witness for C8 at concrete inputs. -/
theorem c8_witness :
    asNumberScaled 2 [] = .ok 2 ∧
    asNumberScaled 2 [109] = .ok (2 * 1000 ^ 2) ∧
    asNumberScaled 2 [77, 98] = .ok (2 * 1024 ^ 2) ∧
    asNumberScaled 2 [113] = .error () ∧
    asNumberScaled 2 [107, 120] = .error () ∧
    asNumberScaled 2 [113, 98] = .error () ∧
    asNumberScaled 2 [107, 98, 98] = .error () := by
  refine ⟨c8_suffix_multipliers.1 2, ?_, ?_, ?_, ?_, ?_, ?_⟩
  · exact (c8_suffix_multipliers.2.1 2 (109, 2) (by decide)).1
  · exact (c8_suffix_multipliers.2.1 2 (77, 2) (by decide)).2 98 (Or.inl rfl)
  · exact c8_suffix_multipliers.2.2.1 2 113 (by decide)
  · exact c8_suffix_multipliers.2.2.2.1 2 107 120 (by decide) (by decide)
  · exact c8_suffix_multipliers.2.2.2.2.1 2 113 98 (Or.inl rfl) (by decide)
  · exact c8_suffix_multipliers.2.2.2.2.2 2 [107, 98, 98] (by decide)

/-! Helper lemmas for C9: unwrapping the quotes, stepping the loop over
a unicode escape, and evaluating the escape block itself. -/

theorem unquoteString_wrap (mid : List Nat) :
    unquoteString (34 :: mid ++ [34]) = unquoteLoop (mid.length + 2) [] mid := by
  have hg : (34 :: mid ++ [34]).getLast? = some 34 := by
    rw [show (34 : Nat) :: mid ++ [34] = (34 :: mid) ++ [34] by simp]
    exact List.getLast?_concat _
  show appendUnquotedString [] (34 :: mid ++ [34]) 34 = _
  simp only [appendUnquotedString, List.head?_cons, hg]
  rw [if_neg (by simp)]
  simp [List.dropLast_concat]

theorem unquoteLoop_uescape (fuel : Nat) (acc cs2 : List Nat) :
    unquoteLoop (fuel + 1) acc (92 :: 117 :: cs2) =
      match unquoteUnicodeEscape acc cs2 with
      | .error _ => .error ()
      | .ok (a2, r2) => unquoteLoop fuel a2 r2 := rfl

theorem unquoteLoop_nil (fuel : Nat) (acc : List Nat) :
    unquoteLoop fuel acc [] = .ok acc := by
  cases fuel <;> rfl

theorem uescape_digits (acc ds : List Nat) (h1 : 1 ≤ ds.length)
    (hnb : ∀ d ∈ ds, (d != 125) = true) :
    unquoteUnicodeEscape acc (123 :: (ds ++ [125])) =
      (if 6 < ds.length then .error ()
       else if 0x10FFFF < ds.foldl (fun a d => a * 16 + hexTableVal d) 0 then .error ()
       else .ok (acc ++ utf8EncodeRune (ds.foldl (fun a d => a * 16 + hexTableVal d) 0), [])) := by
  have htw : (ds ++ [125]).takeWhile (fun d => d != 125) = ds := by
    rw [List.takeWhile_append_of_pos hnb]
    simp
  have hdrop : (ds ++ [125]).drop (ds.length + 1) = [] := by
    apply List.drop_eq_nil_of_le
    simp
  simp only [unquoteUnicodeEscape, htw, hdrop]
  rw [if_neg (by simp only [List.length_cons, List.length_append]; omega)]
  rw [if_neg (by simp)]
  rw [if_neg (by simp only [List.length_append, List.length_cons]; omega)]

theorem uescape_no_brace (acc : List Nat) (c : Nat) (rest : List Nat) (hc : c ≠ 123) :
    unquoteUnicodeEscape acc (c :: rest) = .error () := by
  by_cases h3 : (c :: rest).length < 3
  · unfold unquoteUnicodeEscape
    rw [if_pos h3]
  · unfold unquoteUnicodeEscape
    rw [if_neg h3]
    simp only []
    rw [if_pos (by simpa [bne_iff_ne] using hc)]

theorem uescape_no_close (acc ds : List Nat) (h : ∀ d ∈ ds, (d != 125) = true) :
    unquoteUnicodeEscape acc (123 :: ds) = .error () := by
  by_cases h3 : (123 :: ds).length < 3
  · unfold unquoteUnicodeEscape
    rw [if_pos h3]
  · unfold unquoteUnicodeEscape
    rw [if_neg h3]
    simp only []
    rw [if_neg (by simp)]
    rw [if_pos (by rw [List.takeWhile_eq_self_iff.mpr h])]

theorem hexDigit_ne_rbrace {d : Nat} (h : isHexDigitByte d = true) : (d != 125) = true := by
  simp only [isHexDigitByte, Bool.or_eq_true, Bool.and_eq_true, decide_eq_true_eq] at h
  simp only [bne_iff_ne, ne_eq]
  omega

/-- C9 (amended): unquoting interprets a braced escape of one to six
hex digits whose value is a Unicode scalar at most U+10FFFF by
appending that scalar's UTF-8 encoding; more than six bytes between the
braces, a value above U+10FFFF, a missing opening brace, or a missing
closing brace each yield ErrInvalid.  (The original claim also made a
digit count of zero an error; the code instead accepts `\u{}` when more
input follows and appends U+0000 — see the counterexample — so the
error condition on the count is only "greater than six".) -/
theorem c9_unicode_escape_rules :
    (∀ ds : List Nat, 1 ≤ ds.length → ds.length ≤ 6 →
      (∀ d ∈ ds, isHexDigitByte d = true) →
      ds.foldl (fun a d => a * 16 + hexTableVal d) 0 ≤ 0x10FFFF →
      (ds.foldl (fun a d => a * 16 + hexTableVal d) 0 < 0xD800 ∨
        0xDFFF < ds.foldl (fun a d => a * 16 + hexTableVal d) 0) →
      unquoteString ([34, 92, 117, 123] ++ ds ++ [125, 34]) =
        .ok (utf8EncodeRune (ds.foldl (fun a d => a * 16 + hexTableVal d) 0))) ∧
    (∀ ds : List Nat, 6 < ds.length → (∀ d ∈ ds, d ≠ 125) →
      unquoteString ([34, 92, 117, 123] ++ ds ++ [125, 34]) = .error ()) ∧
    (∀ ds : List Nat, 1 ≤ ds.length → ds.length ≤ 6 →
      (∀ d ∈ ds, isHexDigitByte d = true) →
      0x10FFFF < ds.foldl (fun a d => a * 16 + hexTableVal d) 0 →
      unquoteString ([34, 92, 117, 123] ++ ds ++ [125, 34]) = .error ()) ∧
    (∀ (c : Nat) (rest : List Nat), c ≠ 123 →
      unquoteString ([34, 92, 117] ++ (c :: rest) ++ [34]) = .error ()) ∧
    (∀ ds : List Nat, (∀ d ∈ ds, d ≠ 125) →
      unquoteString ([34, 92, 117, 123] ++ ds ++ [34]) = .error ()) := by
  refine ⟨?_, ?_, ?_, ?_, ?_⟩
  · intro ds h1 h6 hhex hle _hsc
    have hnb : ∀ d ∈ ds, (d != 125) = true := fun d hd => hexDigit_ne_rbrace (hhex d hd)
    have hmid : [34, 92, 117, 123] ++ ds ++ [125, 34] =
        34 :: (92 :: 117 :: (123 :: (ds ++ [125]))) ++ [34] := by simp
    rw [hmid, unquoteString_wrap]
    have hlen : (92 :: 117 :: (123 :: (ds ++ [125]))).length + 2 = (ds.length + 5) + 1 := by
      simp
    rw [hlen, unquoteLoop_uescape, uescape_digits [] ds h1 hnb]
    rw [if_neg (by omega), if_neg (by omega)]
    simp [unquoteLoop_nil]
  · intro ds h6 hne
    have hnb : ∀ d ∈ ds, (d != 125) = true := by
      intro d hd
      simpa [bne_iff_ne] using hne d hd
    have hmid : [34, 92, 117, 123] ++ ds ++ [125, 34] =
        34 :: (92 :: 117 :: (123 :: (ds ++ [125]))) ++ [34] := by simp
    rw [hmid, unquoteString_wrap]
    have hlen : (92 :: 117 :: (123 :: (ds ++ [125]))).length + 2 = (ds.length + 5) + 1 := by
      simp
    rw [hlen, unquoteLoop_uescape, uescape_digits [] ds (by omega) hnb]
    rw [if_pos (by omega)]
  · intro ds h1 h6 hhex hgt
    have hnb : ∀ d ∈ ds, (d != 125) = true := fun d hd => hexDigit_ne_rbrace (hhex d hd)
    have hmid : [34, 92, 117, 123] ++ ds ++ [125, 34] =
        34 :: (92 :: 117 :: (123 :: (ds ++ [125]))) ++ [34] := by simp
    rw [hmid, unquoteString_wrap]
    have hlen : (92 :: 117 :: (123 :: (ds ++ [125]))).length + 2 = (ds.length + 5) + 1 := by
      simp
    rw [hlen, unquoteLoop_uescape, uescape_digits [] ds h1 hnb]
    rw [if_neg (by omega), if_pos hgt]
  · intro c rest hc
    have hmid : [34, 92, 117] ++ (c :: rest) ++ [34] =
        34 :: (92 :: 117 :: (c :: rest)) ++ [34] := by simp
    rw [hmid, unquoteString_wrap]
    have hlen : (92 :: 117 :: (c :: rest)).length + 2 = (rest.length + 4) + 1 := by
      simp
    rw [hlen, unquoteLoop_uescape, uescape_no_brace [] c rest hc]
  · intro ds hne
    have hnb : ∀ d ∈ ds, (d != 125) = true := by
      intro d hd
      simpa [bne_iff_ne] using hne d hd
    have hmid : [34, 92, 117, 123] ++ ds ++ [34] =
        34 :: (92 :: 117 :: (123 :: ds)) ++ [34] := by simp
    rw [hmid, unquoteString_wrap]
    have hlen : (92 :: 117 :: (123 :: ds)).length + 2 = (ds.length + 4) + 1 := by
      simp
    rw [hlen, unquoteLoop_uescape, uescape_no_close [] ds hnb]

/-- Witness for C9 at concrete inputs: the two-digit escape 4A
(U+004A), a seven-digit escape, the six-digit value 110000 above
U+10FFFF, a missing opening brace, and a missing closing brace. -/
theorem c9_witness :
    unquoteString ([34, 92, 117, 123] ++ [52, 65] ++ [125, 34]) =
      .ok (utf8EncodeRune ([52, 65].foldl (fun a d => a * 16 + hexTableVal d) 0)) ∧
    unquoteString ([34, 92, 117, 123] ++ [49, 49, 49, 49, 49, 49, 49] ++ [125, 34]) =
      .error () ∧
    unquoteString ([34, 92, 117, 123] ++ [49, 49, 48, 48, 48, 48] ++ [125, 34]) = .error () ∧
    unquoteString ([34, 92, 117] ++ (120 :: []) ++ [34]) = .error () ∧
    unquoteString ([34, 92, 117, 123] ++ [49, 49] ++ [34]) = .error () := by
  refine ⟨?_, ?_, ?_, ?_, ?_⟩
  · exact c9_unicode_escape_rules.1 [52, 65] (by decide) (by decide) (by decide) (by decide)
      (by decide)
  · exact c9_unicode_escape_rules.2.1 [49, 49, 49, 49, 49, 49, 49] (by decide) (by decide)
  · exact c9_unicode_escape_rules.2.2.1 [49, 49, 48, 48, 48, 48] (by decide) (by decide)
      (by decide) (by decide)
  · exact c9_unicode_escape_rules.2.2.2.1 120 [] (by decide)
  · exact c9_unicode_escape_rules.2.2.2.2 [49, 49] (by decide)

/-- Witness for C3 at a concrete input: content containing one quote
needs exactly one hash. -/
theorem c3_witness :
    bytesContains [97, 34, 98] (rawMarker (rawStringHashCount [97, 34, 98])) = false ∧
    (∀ m, m < rawStringHashCount [97, 34, 98] →
      bytesContains [97, 34, 98] (rawMarker m) = true) ∧
    appendRawString [] [97, 34, 98] =
      [114] ++ List.replicate (rawStringHashCount [97, 34, 98]) 35 ++ [34] ++ [97, 34, 98] ++
        [34] ++ List.replicate (rawStringHashCount [97, 34, 98]) 35 :=
  c3_rawstring_minimal_hashes [97, 34, 98]

/-! Helper lemma and concrete contexts for the amended C7 statement. -/

/-- Bind of an already-`ok` computation reduces to the continuation. -/
theorem bindOk {e a b : Type} (x : a) (f : a → Except e b) :
    (Except.ok x >>= f) = f x := rfl

/-- A context in the parameter region of a fresh node under the strict
dialect (as after a node name and a space): one node on the stack. -/
def c7CtxParams : ParseContext :=
  { initContext strictFlags with state := .nodeParams, nodeStack := [(NodeE.empty, false)] }

/-- `c7CtxParams` holding the quoted-string token `"x"` in `stateArgOrProp`. -/
def c7CtxHeld : ParseContext :=
  { c7CtxParams with state := .argProp, ident := quotedTok "\"x\"" }

/-- A context in `statePropertyValue` holding the property name `k`. -/
def c7CtxPropVal : ParseContext :=
  { c7CtxParams with state := .propertyValue, ident := bareTok "k" }

/-- A context in `stateProperty` after a bare identifier `k`. -/
def c7CtxProp : ParseContext :=
  { c7CtxParams with state := .property, ident := bareTok "k" }

/-- C7 (amended): in a node's parameter region under the strict
(default) dialect only STRING value tokens are provisionally held and
disambiguated, while bare identifiers are committed to the property
path at once.  (1) a quoted or raw string in `stateNodeParams` moves to
`stateArgOrProp` holding the token; (2) whitespace there commits the
held token as an argument of the current node and returns to
`stateNodeParams`; (3) a following `=` (held string or identifier, no
pending type annotation) moves to `statePropertyValue`; (4) which
consumes exactly one value token and commits held-name=value as a
property, returning to `stateNode`; (5) an end-of-node terminator in
`stateArgOrProp` commits the held token as an argument and then pops
the node and state.  Bare identifiers are NOT held: (6) strict mode
sends them from `stateNodeParams` to `stateProperty`, (7) where every
token other than `=` — whitespace and end-of-node included — is a hard
parse error, contradicting the claim's "whitespace or end-of-node
commits it as an argument" for bare identifiers. -/
theorem c7_argprop_disambiguation_strict :
    (∀ (c : ParseContext) (t : Token), c.state = .nodeParams →
      (t.id = .quotedString ∨ t.id = .rawStr) →
      parseStep c t = .ok { c with ident := t, state := .argProp }) ∧
    (∀ (c : ParseContext) (t : Token) (v : ValueE) (stk : List (NodeE × Bool))
      (nm : Option ValueE) (ty : List Nat) (ar : List ValueE) (pr : PropertiesO)
      (ch : List NodeE) (att : Bool),
      c.state = .argProp → t.id = .whitespace →
      c.ignoreNextArgProp = false → c.typeAnnot.valid = false →
      valueFromToken c.ident = .ok v →
      c.nodeStack = stk ++ [(NodeE.mk nm ty ar pr ch, att)] →
      parseStep c t = .ok { c with
        nodeStack := stk ++ [(NodeE.mk nm ty (ar ++ [v]) pr ch, att)],
        typeAnnot := Token.cleared, ident := Token.cleared, state := .nodeParams }) ∧
    (∀ (c : ParseContext) (t : Token), c.state = .argProp → t.id = .equals →
      c.typeAnnot.valid = false →
      (c.ident.id = .bareIdentifier ∨ c.ident.id = .quotedString ∨ c.ident.id = .rawStr) →
      parseStep c t = .ok { c with state := .propertyValue }) ∧
    (∀ (c : ParseContext) (t : Token) (nt vt : ValueE) (key : List Nat)
      (stk : List (NodeE × Bool)) (nm : Option ValueE) (ty : List Nat)
      (ar : List ValueE) (pr : PropertiesO) (ch : List NodeE) (att : Bool),
      c.state = .propertyValue →
      effectiveKey .propertyValue t.id = some .classValue →
      c.ignoreNextArgProp = false → c.typeAnnot.valid = false →
      valueFromToken c.ident = .ok nt → nt.valueString = some key →
      valueFromToken t = .ok vt →
      c.nodeStack = stk ++ [(NodeE.mk nm ty ar pr ch, att)] →
      parseStep c t = .ok { c with
        nodeStack := stk ++ [(NodeE.mk nm ty ar (pr.add key vt) ch, att)],
        typeAnnot := Token.cleared, ident := Token.cleared, state := .node }) ∧
    (∀ (c : ParseContext) (t : Token) (v : ValueE) (stk : List (NodeE × Bool))
      (nm : Option ValueE) (ty : List Nat) (ar : List ValueE) (pr : PropertiesO)
      (ch : List NodeE) (att : Bool),
      c.state = .argProp → effectiveKey .argProp t.id = some .classTerminator →
      c.ident.valid = true → c.ignoreNextArgProp = false →
      c.typeAnnot.valid = false → valueFromToken c.ident = .ok v →
      c.nodeStack = stk ++ [(NodeE.mk nm ty ar pr ch, att)] →
      parseStep c t = ParseContext.popNodeAndState { c with
        nodeStack := stk ++ [(NodeE.mk nm ty (ar ++ [v]) pr ch, att)],
        typeAnnot := Token.cleared, ident := Token.cleared }) ∧
    (∀ (c : ParseContext) (t : Token), c.state = .nodeParams →
      c.relaxed = strictFlags → t.id = .bareIdentifier →
      parseStep c t = .ok { c with ident := t, state := .property }) ∧
    (∀ (c : ParseContext) (t : Token), c.state = .property → t.id ≠ .equals →
      parseStep c t = .error ()) := by
  refine ⟨?_, ?_, ?_, ?_, ?_, ?_, ?_⟩
  · intro c t hst hid
    unfold parseStep
    rcases hid with h | h <;> rw [hst, h] <;> rfl
  · intro c t v stk nm ty ar pr ch att hst hid hig hta hval hstk
    have hcommit : c.commitPendingArg =
        .ok { c with nodeStack := stk ++ [(NodeE.mk nm ty (ar ++ [v]) pr ch, att)] } := by
      unfold ParseContext.commitPendingArg
      rw [hig]
      simp only [Bool.false_eq_true, if_false]
      unfold ParseContext.modifyCurrent
      rw [hstk, List.getLast?_concat]
      unfold NodeE.addArgumentToken
      rw [hval]
      simp [hta, hig, List.dropLast_concat]
      rfl
    unfold parseStep
    rw [hst, hid]
    show applyTransition .argProp .whitespace c t = _
    unfold applyTransition
    rw [hcommit]
    rfl
  · intro c t hst hid hta hident
    unfold parseStep
    rw [hst, hid]
    show applyTransition .argProp .equals c t = _
    unfold applyTransition
    rw [hta]
    rcases hident with h | h | h <;> rw [h] <;> rfl
  · intro c t nt vt key stk nm ty ar pr ch att hst heff hig hta hnt hkey hvt hstk
    have hcommit : c.modifyCurrent (fun n => n.addPropertyToken c.ident t c.typeAnnot) =
        .ok { c with nodeStack := stk ++ [(NodeE.mk nm ty ar (pr.add key vt) ch, att)] } := by
      unfold ParseContext.modifyCurrent
      rw [hstk, List.getLast?_concat]
      unfold NodeE.addPropertyToken
      rw [hnt, hvt]
      simp only [bindOk, hkey, hta]
      simp [List.dropLast_concat]
    unfold parseStep
    rw [hst, heff]
    show applyTransition .propertyValue .classValue c t = _
    unfold applyTransition
    rw [hig]
    simp only [Bool.false_eq_true, if_false]
    rw [hcommit]
    simp [bindOk, hig]
  · intro c t v stk nm ty ar pr ch att hst heff hiv hig hta hval hstk
    have hcommit : c.commitPendingArg =
        .ok { c with nodeStack := stk ++ [(NodeE.mk nm ty (ar ++ [v]) pr ch, att)] } := by
      unfold ParseContext.commitPendingArg
      rw [hig]
      simp only [Bool.false_eq_true, if_false]
      unfold ParseContext.modifyCurrent
      rw [hstk, List.getLast?_concat]
      unfold NodeE.addArgumentToken
      rw [hval]
      simp [hta, hig, List.dropLast_concat]
      rfl
    unfold parseStep
    rw [hst, heff]
    show applyTransition .argProp .classTerminator c t = _
    unfold applyTransition
    rw [hiv]
    simp only [if_true]
    rw [hcommit]
    rfl
  · intro c t hst hrel hid
    unfold parseStep
    rw [hst, hid]
    show applyTransition .nodeParams .bareIdentifier c t = _
    unfold applyTransition
    rw [hrel]
    rfl
  · intro c t hst hne
    unfold parseStep
    rw [hst]
    cases ht : t.id
    case equals => exact absurd ht hne
    all_goals rfl

/-- Witness for C7 at concrete contexts: the string `"x"` (bytes
34 120 34) is held and then committed as an argument by whitespace, as
a property key by `=`, or as an argument plus node pop by a newline;
`k` = quoted `"v"` becomes the single property of the node; the bare
identifier `bar` goes to `stateProperty`, where whitespace errors. -/
theorem c7_amended_witness :
    parseStep c7CtxParams (quotedTok "\"x\"") =
      .ok { c7CtxParams with ident := quotedTok "\"x\"", state := .argProp } ∧
    parseStep c7CtxHeld wsTok =
      .ok { c7CtxHeld with
        nodeStack := [(NodeE.mk none [] [⟨[], .strV [120], .flagQuoted⟩] PropertiesO.empty [],
          false)],
        typeAnnot := Token.cleared, ident := Token.cleared, state := .nodeParams } ∧
    parseStep c7CtxHeld equalsTok = .ok { c7CtxHeld with state := .propertyValue } ∧
    parseStep c7CtxPropVal (quotedTok "\"v\"") =
      .ok { c7CtxPropVal with
        nodeStack := [(NodeE.mk none [] []
          (PropertiesO.empty.add [107] ⟨[], .strV [118], .flagQuoted⟩) [], false)],
        typeAnnot := Token.cleared, ident := Token.cleared, state := .node } ∧
    parseStep c7CtxHeld newlineTok =
      ParseContext.popNodeAndState { c7CtxHeld with
        nodeStack := [(NodeE.mk none [] [⟨[], .strV [120], .flagQuoted⟩] PropertiesO.empty [],
          false)],
        typeAnnot := Token.cleared, ident := Token.cleared } ∧
    parseStep c7CtxParams (bareTok "bar") =
      .ok { c7CtxParams with ident := bareTok "bar", state := .property } ∧
    parseStep c7CtxProp wsTok = .error () := by
  refine ⟨?_, ?_, ?_, ?_, ?_, ?_, ?_⟩
  · exact c7_argprop_disambiguation_strict.1 c7CtxParams (quotedTok "\"x\"") rfl (Or.inl rfl)
  · exact c7_argprop_disambiguation_strict.2.1 c7CtxHeld wsTok ⟨[], .strV [120], .flagQuoted⟩
      [] none [] [] PropertiesO.empty [] false rfl rfl rfl rfl rfl rfl
  · exact c7_argprop_disambiguation_strict.2.2.1 c7CtxHeld equalsTok rfl rfl rfl
      (Or.inr (Or.inl rfl))
  · exact c7_argprop_disambiguation_strict.2.2.2.1 c7CtxPropVal (quotedTok "\"v\"")
      ⟨[], .strV [107], .flagNone⟩ ⟨[], .strV [118], .flagQuoted⟩ [107]
      [] none [] [] PropertiesO.empty [] false rfl rfl rfl rfl rfl rfl rfl rfl
  · exact c7_argprop_disambiguation_strict.2.2.2.2.1 c7CtxHeld newlineTok
      ⟨[], .strV [120], .flagQuoted⟩ [] none [] [] PropertiesO.empty [] false
      rfl rfl rfl rfl rfl rfl rfl
  · exact c7_argprop_disambiguation_strict.2.2.2.2.2.1 c7CtxParams (bareTok "bar") rfl rfl rfl
  · exact c7_argprop_disambiguation_strict.2.2.2.2.2.2 c7CtxProp wsTok rfl (by decide)

/-! ## Helper lemmas for C4: exact arbitrary-precision widening of
oversized decimal integer literals.

The chain mirrors the source path: `parseNumber` strips `_` separators,
sees no float marker, calls the `strconv.ParseInt` model (whose digit
loop is characterised by `parseUintLoop_digits`), receives ErrRange for
any magnitude at or beyond 2^63, and re-parses with the `big.Int`
model; `natToBase_valDigits` then shows the big value renders back to
the cleaned digits. -/

theorem strconvDigit_digit (c : Nat) (h : isDigitByte c = true) :
    strconvDigit c = some (c - 48) := by
  unfold strconvDigit
  unfold isDigitByte at h
  rw [if_pos h]

theorem isDigitByte_bounds (c : Nat) (h : isDigitByte c = true) : 48 ≤ c ∧ c ≤ 57 := by
  simpa [isDigitByte, Bool.and_eq_true, decide_eq_true_eq] using h

theorem foldVal_ge (ds : List Nat) :
    ∀ n : Nat, n ≤ ds.foldl (fun a c => a * 10 + (c - 48)) n := by
  induction ds with
  | nil => intro n; simp
  | cons c cs ih =>
    intro n
    simp only [List.foldl_cons]
    exact le_trans (by omega) (ih (n * 10 + (c - 48)))

theorem parseUintLoop_digits (ds : List Nat) :
    ∀ n : Nat, ds.all isDigitByte = true → n ≤ maxUint64 →
    parseUintLoop 10 n ds =
      if ds.foldl (fun a c => a * 10 + (c - 48)) n ≤ maxUint64 then
        (ds.foldl (fun a c => a * 10 + (c - 48)) n, none)
      else (maxUint64, some .rangeErr) := by
  induction ds with
  | nil => intro n _ hn; simp [parseUintLoop, hn]
  | cons c cs ih =>
    intro n hall hn
    simp only [List.all_cons, Bool.and_eq_true] at hall
    obtain ⟨hc, hcs⟩ := hall
    have hd := strconvDigit_digit c hc
    have hb := isDigitByte_bounds c hc
    have hmax : maxUint64 = 18446744073709551615 := rfl
    simp only [List.foldl_cons]
    unfold parseUintLoop
    rw [hd]
    show (if 10 ≤ c - 48 then ((0 : Nat), some StrconvErr.syntaxErr)
        else if maxUint64 / 10 + 1 ≤ n then (maxUint64, some StrconvErr.rangeErr)
        else if maxUint64 < n * 10 + (c - 48) then (maxUint64, some StrconvErr.rangeErr)
        else parseUintLoop 10 (n * 10 + (c - 48)) cs) = _
    rw [if_neg (show ¬(10 ≤ c - 48) by omega)]
    by_cases hcut : maxUint64 / 10 + 1 ≤ n
    · rw [if_pos hcut]
      have hge := foldVal_ge cs (n * 10 + (c - 48))
      rw [if_neg
        (show ¬(List.foldl (fun a c => a * 10 + (c - 48)) (n * 10 + (c - 48)) cs ≤ maxUint64)
          by omega)]
    · rw [if_neg hcut]
      by_cases hov : maxUint64 < n * 10 + (c - 48)
      · rw [if_pos hov]
        have hge := foldVal_ge cs (n * 10 + (c - 48))
        rw [if_neg
          (show ¬(List.foldl (fun a c => a * 10 + (c - 48)) (n * 10 + (c - 48)) cs ≤ maxUint64)
            by omega)]
      · rw [if_neg hov]
        exact ih (n * 10 + (c - 48)) hcs (by omega)

theorem goParseUint64_digits (ds : List Nat) (hall : ds.all isDigitByte = true)
    (hne : ds ≠ []) :
    goParseUint64 10 ds =
      if valDigits ds ≤ maxUint64 then (valDigits ds, none)
      else (maxUint64, some .rangeErr) := by
  match ds, hne with
  | c :: cs, _ =>
    show parseUintLoop 10 0 (c :: cs) = _
    exact parseUintLoop_digits (c :: cs) 0 hall (by simp [maxUint64])

theorem goParseInt64_pos_overflow (ds : List Nat) (hall : ds.all isDigitByte = true)
    (hne : ds ≠ []) (hbig : 2 ^ 63 ≤ valDigits ds) :
    goParseInt64 10 ds = ((2 : Int) ^ 63 - 1, some .rangeErr) := by
  have hu := goParseUint64_digits ds hall hne
  have hmax : maxUint64 = 18446744073709551615 := rfl
  match ds, hne with
  | c :: cs, _ =>
    have hc : isDigitByte c = true := by
      simp only [List.all_cons, Bool.and_eq_true] at hall
      exact hall.1
    have hb := isDigitByte_bounds c hc
    simp only [goParseInt64]
    rw [if_neg (show ¬(c = 43) by omega), if_neg (show ¬(c = 45) by omega)]
    rw [hu]
    by_cases hfit : valDigits (c :: cs) ≤ maxUint64
    · rw [if_pos hfit]
      show (if ((none : Option StrconvErr).isSome && none != some StrconvErr.rangeErr) = true
          then ((0 : Int), some StrconvErr.syntaxErr)
          else if !false && 2 ^ 63 ≤ valDigits (c :: cs) then
            ((2 : Int) ^ 63 - 1, some StrconvErr.rangeErr)
          else if false && 2 ^ 63 < valDigits (c :: cs) then
            (-(2 : Int) ^ 63, some StrconvErr.rangeErr)
          else ((valDigits (c :: cs) : Int), none)) = _
      rw [if_neg (by simp)]
      rw [if_pos (by simp only [Bool.not_false, Bool.true_and, decide_eq_true_eq]; omega)]
    · rw [if_neg hfit]
      show (if ((some StrconvErr.rangeErr).isSome
              && some StrconvErr.rangeErr != some StrconvErr.rangeErr) = true
          then ((0 : Int), some StrconvErr.syntaxErr)
          else if !false && 2 ^ 63 ≤ maxUint64 then
            ((2 : Int) ^ 63 - 1, some StrconvErr.rangeErr)
          else if false && 2 ^ 63 < maxUint64 then
            (-(2 : Int) ^ 63, some StrconvErr.rangeErr)
          else ((maxUint64 : Int), some StrconvErr.rangeErr)) = _
      rw [if_neg (by simp)]
      rw [if_pos (by simp only [Bool.not_false, Bool.true_and, decide_eq_true_eq]; omega)]

theorem goParseInt64_plus_overflow (ds : List Nat) (hall : ds.all isDigitByte = true)
    (hne : ds ≠ []) (hbig : 2 ^ 63 ≤ valDigits ds) :
    goParseInt64 10 (43 :: ds) = ((2 : Int) ^ 63 - 1, some .rangeErr) := by
  have hu := goParseUint64_digits ds hall hne
  have hmax : maxUint64 = 18446744073709551615 := rfl
  simp only [goParseInt64, if_true]
  rw [hu]
  by_cases hfit : valDigits ds ≤ maxUint64
  · rw [if_pos hfit]
    show (if ((none : Option StrconvErr).isSome && none != some StrconvErr.rangeErr) = true
        then ((0 : Int), some StrconvErr.syntaxErr)
        else if !false && 2 ^ 63 ≤ valDigits ds then
          ((2 : Int) ^ 63 - 1, some StrconvErr.rangeErr)
        else if false && 2 ^ 63 < valDigits ds then
          (-(2 : Int) ^ 63, some StrconvErr.rangeErr)
        else ((valDigits ds : Int), none)) = _
    rw [if_neg (by simp)]
    rw [if_pos (by simp only [Bool.not_false, Bool.true_and, decide_eq_true_eq]; omega)]
  · rw [if_neg hfit]
    show (if ((some StrconvErr.rangeErr).isSome
            && some StrconvErr.rangeErr != some StrconvErr.rangeErr) = true
        then ((0 : Int), some StrconvErr.syntaxErr)
        else if !false && 2 ^ 63 ≤ maxUint64 then
          ((2 : Int) ^ 63 - 1, some StrconvErr.rangeErr)
        else if false && 2 ^ 63 < maxUint64 then
          (-(2 : Int) ^ 63, some StrconvErr.rangeErr)
        else ((maxUint64 : Int), some StrconvErr.rangeErr)) = _
    rw [if_neg (by simp)]
    rw [if_pos (by simp only [Bool.not_false, Bool.true_and, decide_eq_true_eq]; omega)]

theorem goParseInt64_neg_overflow (ds : List Nat) (hall : ds.all isDigitByte = true)
    (hne : ds ≠ []) (hbig : 2 ^ 63 < valDigits ds) :
    goParseInt64 10 (45 :: ds) = (-(2 : Int) ^ 63, some .rangeErr) := by
  have hu := goParseUint64_digits ds hall hne
  have hmax : maxUint64 = 18446744073709551615 := rfl
  simp only [goParseInt64, if_true, if_false]
  rw [if_neg (show ¬((45 : Nat) = 43) by omega)]
  rw [hu]
  by_cases hfit : valDigits ds ≤ maxUint64
  · rw [if_pos hfit]
    show (if ((none : Option StrconvErr).isSome && none != some StrconvErr.rangeErr) = true
        then ((0 : Int), some StrconvErr.syntaxErr)
        else if !true && 2 ^ 63 ≤ valDigits ds then
          ((2 : Int) ^ 63 - 1, some StrconvErr.rangeErr)
        else if true && 2 ^ 63 < valDigits ds then
          (-(2 : Int) ^ 63, some StrconvErr.rangeErr)
        else (-(valDigits ds : Int), none)) = _
    rw [if_neg (by simp)]
    rw [if_neg (by simp)]
    rw [if_pos (by simp only [Bool.true_and, decide_eq_true_eq]; omega)]
  · rw [if_neg hfit]
    show (if ((some StrconvErr.rangeErr).isSome
            && some StrconvErr.rangeErr != some StrconvErr.rangeErr) = true
        then ((0 : Int), some StrconvErr.syntaxErr)
        else if !true && 2 ^ 63 ≤ maxUint64 then
          ((2 : Int) ^ 63 - 1, some StrconvErr.rangeErr)
        else if true && 2 ^ 63 < maxUint64 then
          (-(2 : Int) ^ 63, some StrconvErr.rangeErr)
        else (-(maxUint64 : Int), some StrconvErr.rangeErr)) = _
    rw [if_neg (by simp)]
    rw [if_neg (by simp)]
    rw [if_pos (by simp only [Bool.true_and, decide_eq_true_eq]; omega)]

theorem foldDigits_eq (ds : List Nat) : ∀ (_ : ds.all isDigitByte = true) (a : Nat),
    ds.foldl (fun a c => a * 10 + (strconvDigit c).getD 0) a =
    ds.foldl (fun a c => a * 10 + (c - 48)) a := by
  induction ds with
  | nil => intro _ a; rfl
  | cons c cs ih =>
    intro hall a
    simp only [List.all_cons, Bool.and_eq_true] at hall
    simp only [List.foldl_cons, strconvDigit_digit c hall.1, Option.getD_some]
    exact ih hall.2 _

theorem digitsOk (ds : List Nat) (hall : ds.all isDigitByte = true) :
    ds.all (fun d => ((strconvDigit d).getD 10) < 10) = true := by
  rw [List.all_eq_true] at hall ⊢
  intro d hd
  have h := hall d hd
  have hb := isDigitByte_bounds d h
  simp [strconvDigit_digit d h]
  omega

theorem bigIntSetString_digits (ds : List Nat) (hall : ds.all isDigitByte = true)
    (hne : ds ≠ []) :
    bigIntSetString 10 ds = some (valDigits ds) ∧
    bigIntSetString 10 (43 :: ds) = some (valDigits ds) ∧
    bigIntSetString 10 (45 :: ds) = some (-(valDigits ds : Int)) := by
  have hok := digitsOk ds hall
  have hval : valDigitsBase 10 ds = valDigits ds := foldDigits_eq ds hall 0
  refine ⟨?_, ?_, ?_⟩
  · match ds, hne, hall, hok, hval with
    | c :: cs, _, hall, hok, hval =>
      have hb := isDigitByte_bounds c (by
        simp only [List.all_cons, Bool.and_eq_true] at hall
        exact hall.1)
      simp only [bigIntSetString]
      rw [if_neg (show ¬(c = 43) by omega), if_neg (show ¬(c = 45) by omega)]
      rw [if_neg (by simp [hok])]
      rw [hval]
      simp
  · simp only [bigIntSetString, if_true]
    rw [if_neg (by simp [hok, hne])]
    rw [hval]
    simp
  · simp only [bigIntSetString, if_true, if_false]
    rw [if_neg (show ¬((45 : Nat) = 43) by omega)]
    rw [if_neg (by simp [hok, hne])]
    rw [hval]
    simp

theorem natToBase_small (n : Nat) (h : n < 10) : natToBase 10 n = [digitByte n] := by
  match n, h with
  | 0, _ => rfl
  | (k + 1), h =>
    unfold natToBase natToBaseAux
    rw [if_pos (by simp [h])]

theorem natToBaseAux_fuel_eq (n : Nat) : ∀ (f1 f2 : Nat), n ≤ f1 → n ≤ f2 →
    natToBaseAux 10 f1 n = natToBaseAux 10 f2 n := by
  induction n using Nat.strong_induction_on with
  | _ n ih =>
    intro f1 f2 h1 h2
    match f1, f2 with
    | 0, 0 => rfl
    | 0, b + 1 =>
      have : n = 0 := by omega
      subst this
      simp [natToBaseAux]
    | a + 1, 0 =>
      have : n = 0 := by omega
      subst this
      simp [natToBaseAux]
    | a + 1, b + 1 =>
      by_cases hlt : n < 10
      · unfold natToBaseAux
        rw [if_pos (by simp [hlt]), if_pos (by simp [hlt])]
      · unfold natToBaseAux
        rw [if_neg (by simp [hlt]), if_neg (by simp [hlt])]
        rw [ih (n / 10) (by omega) a b (by omega) (by omega)]

theorem natToBase_append_digit (m d : Nat) (hm : 0 < m) (hd : d < 10) :
    natToBase 10 (m * 10 + d) = natToBase 10 m ++ [digitByte d] := by
  obtain ⟨k, hk⟩ : ∃ k, m * 10 + d = k + 1 := ⟨m * 10 + d - 1, by omega⟩
  have h1 : (k + 1) / 10 = m := by omega
  have h2 : (k + 1) % 10 = d := by omega
  have hstep : natToBase 10 (m * 10 + d) = natToBaseAux 10 k m ++ [digitByte d] := by
    rw [show natToBase 10 (m * 10 + d) = natToBaseAux 10 (m * 10 + d) (m * 10 + d) from rfl,
      hk]
    conv_lhs => unfold natToBaseAux
    rw [if_neg (by simp; omega), h1, h2]
  rw [hstep, natToBaseAux_fuel_eq m k m (by omega) le_rfl]
  rfl

theorem valDigits_dropWhile_zeros (ds : List Nat) :
    valDigits (ds.dropWhile (fun c => c == 48)) = valDigits ds := by
  induction ds with
  | nil => rfl
  | cons c cs ih =>
    by_cases h : c = 48
    · subst h
      rw [List.dropWhile_cons_of_pos (by simp)]
      simpa [valDigits] using ih
    · rw [List.dropWhile_cons_of_neg (by simp [h])]

theorem head_dropWhile_ne (ds : List Nat) :
    (ds.dropWhile (fun c => c == 48)).head? ≠ some 48 := by
  induction ds with
  | nil => simp
  | cons c cs ih =>
    by_cases h : c = 48
    · subst h
      rw [List.dropWhile_cons_of_pos (by simp)]
      exact ih
    · rw [List.dropWhile_cons_of_neg (by simp [h])]
      simp [h]

theorem all_dropWhile_digits (ds : List Nat) (hall : ds.all isDigitByte = true) :
    (ds.dropWhile (fun c => c == 48)).all isDigitByte = true := by
  rw [List.all_eq_true] at hall ⊢
  intro d hd
  exact hall d (List.Sublist.mem hd (List.dropWhile_sublist _))

theorem natToBase_valDigits (ds : List Nat) :
    ds.all isDigitByte = true → ds ≠ [] → ds.head? ≠ some 48 →
    natToBase 10 (valDigits ds) = ds := by
  induction ds using List.reverseRecOn with
  | nil => intro _ h _; exact absurd rfl h
  | append_singleton ds c ih =>
    intro hall hne hhead
    have hallc : ds.all isDigitByte = true ∧ isDigitByte c = true := by
      rw [List.all_append] at hall
      simpa using hall
    have hbc := isDigitByte_bounds c hallc.2
    match ds, hallc, hhead, ih with
    | [], _, hhead, _ =>
      have hv : valDigits ([] ++ [c]) = c - 48 := by simp [valDigits]
      rw [hv, natToBase_small (c - 48) (by omega)]
      simp only [List.nil_append]
      unfold digitByte
      rw [if_pos (by omega)]
      congr 1
      omega
    | d :: rest, hallc, hhead, ih =>
      have hdne : d ≠ 48 := by
        simpa using hhead
      have hbd := isDigitByte_bounds d (by
        have := hallc.1
        simp only [List.all_cons, Bool.and_eq_true] at this
        exact this.1)
      have hv : valDigits ((d :: rest) ++ [c]) = valDigits (d :: rest) * 10 + (c - 48) := by
        simp [valDigits, List.foldl_append]
      have hpos : 0 < valDigits (d :: rest) := by
        have hge := foldVal_ge rest (d - 48)
        simp only [valDigits, List.foldl_cons, Nat.zero_mul, Nat.zero_add]
        omega
      rw [hv, natToBase_append_digit (valDigits (d :: rest)) (c - 48) hpos (by omega)]
      rw [ih hallc.1 (by simp) (by simpa using hdne)]
      have hdig : digitByte (c - 48) = c := by
        unfold digitByte
        rw [if_pos (by omega)]
        omega
      rw [hdig]

theorem contains_false_digits (ds : List Nat) (hall : ds.all isDigitByte = true)
    (x : Nat) (hx : x < 48 ∨ 57 < x) : ds.contains x = false := by
  have hmem : ¬ x ∈ ds := by
    intro hm
    rw [List.all_eq_true] at hall
    have := isDigitByte_bounds x (hall x hm)
    omega
  simpa using hmem

theorem parseNumber_reduce (b bf : List Nat)
    (hfil : b.filter (fun c => c != 95) = bf)
    (h46 : bf.contains 46 = false) (h101 : bf.contains 101 = false)
    (h69 : bf.contains 69 = false) :
    parseNumber b 10 =
      (match goParseInt64 10 bf with
      | (_, some .rangeErr) => .ok (.bigInt ((bigIntSetString 10 bf).getD 0))
      | (_, some .syntaxErr) => .error ()
      | (v, none) => .ok (.i64 v)) := by
  simp only [parseNumber, bne_self_eq_false, Bool.false_eq_true, if_false]
  rw [hfil]
  rw [h46, h101, h69]
  rfl

/-- C4: a decimal integer literal (optional sign, digits, optional `_`
separators) whose magnitude leaves the 64-bit range (at or above 2^63
for `+`/unsigned, above 2^63 for `-`) parses without error to an
arbitrary-precision integer holding the exact value of the digit
string, and rendering that value in base 10 reproduces the cleaned
digit sequence - separators and leading zeros removed, `-` kept - with
no truncation. -/
theorem c4_big_decimal_widens_exactly (sgn dsR dsC : List Nat)
    (hsgn : sgn = [] ∨ sgn = [43] ∨ sgn = [45])
    (hallR : dsR.all (fun c => isDigitByte c || c == 95) = true)
    (hdsC : dsC = dsR.filter (fun c => c != 95))
    (hne : dsC ≠ [])
    (hmag : if sgn = [45] then 2 ^ 63 < valDigits dsC else 2 ^ 63 ≤ valDigits dsC) :
    parseNumber (sgn ++ dsR) 10 =
      .ok (.bigInt (if sgn = [45] then -(valDigits dsC : Int) else (valDigits dsC : Int))) ∧
    intToBase 10 (if sgn = [45] then -(valDigits dsC : Int) else (valDigits dsC : Int)) =
      (if sgn = [45] then [45] else []) ++ dsC.dropWhile (fun c => c == 48) := by
  have hallC : dsC.all isDigitByte = true := by
    subst hdsC
    rw [List.all_eq_true]
    intro d hd
    rw [List.mem_filter] at hd
    have h1 := List.all_eq_true.mp hallR d hd.1
    have h2 := hd.2
    simp only [Bool.or_eq_true, beq_iff_eq] at h1
    rcases h1 with h | h
    · exact h
    · subst h
      simp at h2
  have hfil : (sgn ++ dsR).filter (fun c => c != 95) = sgn ++ dsC := by
    rw [List.filter_append, ← hdsC]
    rcases hsgn with h | h | h <;> subst h <;> rfl
  have hcont : ∀ x : Nat, x < 48 ∨ 57 < x → x ≠ 43 → x ≠ 45 →
      (sgn ++ dsC).contains x = false := by
    intro x hx h43 h45
    have hm : ¬ x ∈ sgn ++ dsC := by
      intro hm
      rw [List.mem_append] at hm
      rcases hm with hm | hm
      · rcases hsgn with h | h | h <;> subst h <;> simp at hm <;> omega
      · rw [List.all_eq_true] at hallC
        have := isDigitByte_bounds x (hallC x hm)
        omega
    simpa using hm
  have hred := parseNumber_reduce (sgn ++ dsR) (sgn ++ dsC) hfil
    (hcont 46 (by omega) (by omega) (by omega))
    (hcont 101 (by omega) (by omega) (by omega))
    (hcont 69 (by omega) (by omega) (by omega))
  have hpos : 0 < valDigits dsC := by
    rcases hsgn with h | h | h <;> subst h <;> simp at hmag <;> omega
  have hrender : natToBase 10 (valDigits dsC) = dsC.dropWhile (fun c => c == 48) := by
    have hz := valDigits_dropWhile_zeros dsC
    have hzne : dsC.dropWhile (fun c => c == 48) ≠ [] := by
      intro h0
      rw [h0] at hz
      have h00 : valDigits ([] : List Nat) = 0 := rfl
      omega
    rw [← hz]
    exact natToBase_valDigits _ (all_dropWhile_digits dsC hallC) hzne (head_dropWhile_ne dsC)
  rcases hsgn with h | h | h <;> subst h
  · rw [if_neg (show ¬(([] : List Nat) = [45]) by simp)] at hmag
    simp only [List.nil_append] at hred
    constructor
    · simp only [List.nil_append]
      rw [hred, goParseInt64_pos_overflow dsC hallC hne hmag]
      rw [(bigIntSetString_digits dsC hallC hne).1]
      simp
    · rw [if_neg (show ¬(([] : List Nat) = [45]) by simp),
        if_neg (show ¬(([] : List Nat) = [45]) by simp)]
      unfold intToBase
      rw [if_neg (by omega), Int.natAbs_ofNat, hrender]
      simp
  · rw [if_neg (show ¬(([43] : List Nat) = [45]) by simp)] at hmag
    simp only [List.cons_append, List.nil_append] at hred
    constructor
    · simp only [List.cons_append, List.nil_append]
      rw [hred, goParseInt64_plus_overflow dsC hallC hne hmag]
      rw [(bigIntSetString_digits dsC hallC hne).2.1]
      simp
    · rw [if_neg (show ¬(([43] : List Nat) = [45]) by simp),
        if_neg (show ¬(([43] : List Nat) = [45]) by simp)]
      unfold intToBase
      rw [if_neg (by omega), Int.natAbs_ofNat, hrender]
      simp
  · rw [if_pos rfl] at hmag
    simp only [List.cons_append, List.nil_append] at hred
    constructor
    · simp only [List.cons_append, List.nil_append]
      rw [hred, goParseInt64_neg_overflow dsC hallC hne hmag]
      rw [(bigIntSetString_digits dsC hallC hne).2.2]
      simp
    · rw [if_pos rfl, if_pos rfl]
      unfold intToBase
      rw [if_pos (by omega), Int.natAbs_neg, Int.natAbs_ofNat, hrender]
      simp


/-- Witness for C4 at a concrete input: `-0_9223372036854775809`
(magnitude 2^63 + 1, with a separator and a leading zero) parses to the
exact big integer and renders as `-9223372036854775809`. -/
theorem c4_witness :
    parseNumber (asciiBytes "-0_9223372036854775809") 10 =
      .ok (.bigInt (-9223372036854775809)) ∧
    intToBase 10 (-9223372036854775809) = asciiBytes "-9223372036854775809" :=
  c4_big_decimal_widens_exactly [45] (asciiBytes "0_9223372036854775809")
    (asciiBytes "09223372036854775809") (Or.inr (Or.inr rfl)) (by decide) (by decide)
    (by decide) (by decide)

end KdlGo
